import Mathlib

/-!
Verification of the background-task / resumable-ingestion core of the
stock-data synchronization repository.  The Lean definitions below are a
shallow embedding of the Python source: pure conversion code becomes Lean
functions, the database session becomes explicit state passing over a
`Db` value, exceptions become `Except`, and the external collaborators
(data-source client, clock, stock-name lookup, commit outcomes) become
parameters.  Each claim about the specification is then settled as a
theorem about these definitions.
-/

namespace StockSync

/-- Calendar day index: day 0 denotes 2000-01-01 (the code's default
earliest start date), and adding one calendar day is `+ 1`. -/
abbrev Date := Nat

/-- Timestamp, e.g. a value of `get_china_time()`; its concrete value is
irrelevant to every claim. -/
abbrev Time := Nat

/-- Day index of 2000-01-01, the default first-sync start date string
`'2000-01-01'` used when no checkpoint exists. -/
def epoch2000 : Date := 0

/-- Gregorian leap-year test, used only to place January 1 of later years. -/
def isLeapYear (y : Nat) : Bool :=
  y % 4 == 0 && (y % 100 != 0 || y % 400 == 0)

/-- Number of days in year `y`. -/
def daysInYear (y : Nat) : Nat := if isLeapYear y then 366 else 365

/-- Day index of January 1 of year `y` (for `y ≥ 2000`): the start date
`start_year`-01-01 built by `sync_stock_prices`. -/
def yearStartDate (y : Nat) : Date :=
  (List.range (y - 2000)).foldl (fun acc k => acc + daysInYear (2000 + k)) epoch2000

/-- A raw provider record (`StockDailyRecord`, equivalently the dict handed
to `convert_to_database_format`): ticker, date, OHLC prices, volume.
`openP` stands for the source field `open`, which is a Lean keyword. -/
structure ApiRecord where
  ticker : String
  date : Date
  openP : ℚ
  high : ℚ
  low : ℚ
  close : ℚ
  volume : ℤ
deriving DecidableEq

/-- A row of the `stock_daily_data` table, with exactly the fields built by
`convert_to_database_format` and stored through `StockDailyData(**record)`. -/
structure DbRecord where
  trade_date : Date
  symbol : String
  stock_name : String
  close_price : ℚ
  open_price : ℚ
  high_price : ℚ
  low_price : ℚ
  volume : ℤ
  turnover : ℚ
  market_code : String
  price_change : Option ℚ
  price_change_pct : Option ℚ
  premium_rate : Option ℚ
  created_at : Time
  updated_at : Time
deriving DecidableEq

/-- A row of the `stock_info` table; `last_sync_date` is the per-entity
checkpoint. -/
structure StockInfoRow where
  symbol : String
  stock_name : String
  stock_code : String
  market_code : String
  is_active : String
  last_sync_date : Option Date
  first_fetch_time : Option Time
  created_at : Time
  updated_at : Time
deriving DecidableEq

/-- The persistent store: the two tables the core reads and writes. -/
structure Db where
  stocks : List StockInfoRow
  daily : List DbRecord
deriving DecidableEq

/-- `symbol.split('.')[0] if '.' in symbol else 'UNKNOWN'`. -/
def marketCodeOf (symbol : String) : String :=
  if symbol.contains '.' then (symbol.splitOn ".").headD "UNKNOWN" else "UNKNOWN"

/-- `symbol.split('.')[1] if '.' in symbol else symbol`. -/
def stockCodeOf (symbol : String) : String :=
  if symbol.contains '.' then (symbol.splitOn ".").getD 1 symbol else symbol

/-- The per-entity checkpoint as read from the store:
`stock_info.last_sync_date` of the (first) row for `symbol`. -/
def checkpointOf (db : Db) (symbol : String) : Option Date :=
  (db.stocks.find? (fun s => s.symbol == symbol)).bind (fun s => s.last_sync_date)

/-! ### Record conversion (`data_fetcher/stock_api.py`) -/

/-- One converted row before change computation: the record dict literal in
`convert_to_database_format`.  Turnover is estimated as volume times close;
the change fields start as None. -/
def convertBase (symbol stock_name market_code : String) (china_now : Time)
    (item : ApiRecord) : DbRecord :=
  { trade_date := item.date
    symbol := symbol
    stock_name := stock_name
    close_price := item.close
    open_price := item.openP
    high_price := item.high
    low_price := item.low
    volume := item.volume
    turnover := (item.volume : ℚ) * item.close
    market_code := market_code
    price_change := none
    price_change_pct := none
    premium_rate := none
    created_at := china_now
    updated_at := china_now }

/-- The sort key comparison of `db_records.sort(key=lambda x: x['trade_date'])`. -/
def dateLe (a b : DbRecord) : Prop := a.trade_date ≤ b.trade_date

instance : DecidableRel dateLe := fun a b =>
  inferInstanceAs (Decidable (a.trade_date ≤ b.trade_date))

instance : IsTotal DbRecord dateLe := ⟨fun a b => Nat.le_total a.trade_date b.trade_date⟩

instance : IsTrans DbRecord dateLe := ⟨fun _ _ _ => Nat.le_trans⟩

/-- The change-computation loop over consecutive rows of the sorted batch.
Decimal division by a zero previous close raises in the original; that is
the `.error` case. -/
def computeChangesAux (prev : DbRecord) :
    List DbRecord → Except String (List DbRecord)
  | [] => .ok []
  | r :: rs =>
    if prev.close_price = 0 then .error "division by zero"
    else
      match computeChangesAux r rs with
      | .error e => .error e
      | .ok rest =>
        .ok ({ r with
                price_change := some (r.close_price - prev.close_price),
                price_change_pct :=
                  some ((r.close_price - prev.close_price) / prev.close_price * 100) }
              :: rest)

/-- `convert_to_database_format`: build the row dicts, sort ascending by
trade date, then fill day-over-day change fields for every row after the
first. -/
def convert_to_database_format (api_data : List ApiRecord)
    (symbol stock_name : String) (china_now : Time) :
    Except String (List DbRecord) :=
  match List.insertionSort dateLe
      (api_data.map (convertBase symbol stock_name (marketCodeOf symbol) china_now)) with
  | [] => .ok []
  | r :: rs =>
    match computeChangesAux r rs with
    | .error e => .error e
    | .ok rest => .ok (r :: rest)

/-- Forgets the two derived change fields; the conversion loop alters rows
only on these two fields. -/
def eraseChanges (r : DbRecord) : DbRecord :=
  { r with price_change := none, price_change_pct := none }

/-- Row `b`'s change fields are exactly the consecutive-row differences
against its immediate predecessor `a`. -/
def changeDerived (a b : DbRecord) : Prop :=
  b.price_change = some (b.close_price - a.close_price) ∧
  b.price_change_pct =
    some ((b.close_price - a.close_price) / a.close_price * 100)

theorem computeChangesAux_ok :
    ∀ (prev : DbRecord) (l out : List DbRecord),
      computeChangesAux prev l = .ok out →
      out.map eraseChanges = l.map eraseChanges ∧
        List.Chain' changeDerived (prev :: out)
  | _, [], out, h => by
    simp only [computeChangesAux, Except.ok.injEq] at h
    subst h
    exact ⟨rfl, List.chain'_singleton _⟩
  | prev, r :: rs, out, h => by
    rw [computeChangesAux] at h
    by_cases hz : prev.close_price = 0
    · simp [hz] at h
    · rw [if_neg hz] at h
      cases hrec : computeChangesAux r rs with
      | error e => rw [hrec] at h; cases h
      | ok rest =>
        rw [hrec] at h
        simp only [Except.ok.injEq] at h
        subst h
        obtain ⟨hmap, hchain⟩ := computeChangesAux_ok r rs rest hrec
        constructor
        · simpa [eraseChanges] using hmap
        · rw [List.chain'_cons]
          refine ⟨⟨rfl, rfl⟩, ?_⟩
          cases rest with
          | nil => exact List.chain'_singleton _
          | cons x xs =>
            rw [List.chain'_cons] at hchain ⊢
            exact ⟨hchain.1, hchain.2⟩

/-- Structural inversion of a successful conversion: either the sorted base
list was empty, or the output is the sorted head followed by the rows that
the change loop filled in. -/
theorem convert_ok_cases {api : List ApiRecord} {symbol stock_name : String}
    {china_now : Time} {recs : List DbRecord}
    (hok : convert_to_database_format api symbol stock_name china_now = .ok recs) :
    recs = [] ∨
      ∃ s ss rest,
        List.insertionSort dateLe
            (api.map (convertBase symbol stock_name (marketCodeOf symbol) china_now)) =
          s :: ss ∧
        computeChangesAux s ss = .ok rest ∧ recs = s :: rest := by
  unfold convert_to_database_format at hok
  cases hsorted : List.insertionSort dateLe
      (api.map (convertBase symbol stock_name (marketCodeOf symbol) china_now)) with
  | nil =>
    rw [hsorted] at hok
    simp only [Except.ok.injEq] at hok
    exact Or.inl hok.symm
  | cons s ss =>
    rw [hsorted] at hok
    have hok2 : (match computeChangesAux s ss with
        | Except.error e => Except.error e
        | Except.ok rest => Except.ok (s :: rest)) = Except.ok recs := hok
    cases hrest : computeChangesAux s ss with
    | error e => rw [hrest] at hok2; cases hok2
    | ok rest =>
      rw [hrest] at hok2
      simp only [Except.ok.injEq] at hok2
      exact Or.inr ⟨s, ss, rest, rfl, hrest, hok2.symm⟩

/-- Every row produced by a successful conversion is, up to its change
fields, one of the freshly built base rows; therefore every static field
(symbol, date, prices, volume, turnover, market code, timestamps) comes
from `convertBase` applied to some input item. -/
theorem convert_ok_mem {api : List ApiRecord} {symbol stock_name : String}
    {china_now : Time} {recs : List DbRecord}
    (hok : convert_to_database_format api symbol stock_name china_now = .ok recs) :
    ∀ r ∈ recs, ∃ item ∈ api,
      eraseChanges r =
        convertBase symbol stock_name (marketCodeOf symbol) china_now item := by
  intro r hr
  rcases convert_ok_cases hok with h | ⟨s, ss, rest, hsorted, hrest, hrecs⟩
  · subst h; cases hr
  · obtain ⟨hmap, _⟩ := computeChangesAux_ok s ss rest hrest
    have hperm : List.Perm
        (List.insertionSort dateLe
          (api.map (convertBase symbol stock_name (marketCodeOf symbol) china_now)))
        (api.map (convertBase symbol stock_name (marketCodeOf symbol) china_now)) :=
      List.perm_insertionSort _ _
    rw [hsorted] at hperm
    subst hrecs
    have hmem : eraseChanges r ∈ (s :: ss).map eraseChanges := by
      cases hr with
      | head => exact List.mem_cons_self _ _
      | tail _ htail =>
        exact List.mem_cons_of_mem _ (hmap ▸ List.mem_map_of_mem eraseChanges htail)
    have hmem2 : eraseChanges r ∈
        (api.map (convertBase symbol stock_name (marketCodeOf symbol) china_now)).map
          eraseChanges :=
      (hperm.map eraseChanges).mem_iff.mp hmem
    rw [List.map_map] at hmem2
    obtain ⟨item, hitem, hconv⟩ := List.mem_map.mp hmem2
    refine ⟨item, hitem, ?_⟩
    rw [← hconv]
    rfl

/-- `dateLe` seen through the `trade_date` projection. -/
theorem pairwise_dateLe_iff {l : List DbRecord} :
    List.Pairwise dateLe l ↔
      List.Pairwise (fun a b : Nat => a ≤ b) (l.map (fun r => r.trade_date)) := by
  rw [List.pairwise_map]
  exact Iff.rfl

/-- A successful conversion's output is sorted ascending by trade date. -/
theorem convert_ok_sorted {api : List ApiRecord} {symbol stock_name : String}
    {china_now : Time} {recs : List DbRecord}
    (hok : convert_to_database_format api symbol stock_name china_now = .ok recs) :
    List.Pairwise dateLe recs := by
  rcases convert_ok_cases hok with h | ⟨s, ss, rest, hsorted, hrest, hrecs⟩
  · subst h; exact List.Pairwise.nil
  · obtain ⟨hmap, _⟩ := computeChangesAux_ok s ss rest hrest
    have hsort : List.Sorted dateLe (s :: ss) := by
      have h := List.sorted_insertionSort dateLe
        (api.map (convertBase symbol stock_name (marketCodeOf symbol) china_now))
      rwa [hsorted] at h
    subst hrecs
    have htail : rest.map (fun r => r.trade_date) = ss.map (fun r => r.trade_date) := by
      have h2 := congrArg (List.map (fun r : DbRecord => r.trade_date)) hmap
      rw [List.map_map, List.map_map] at h2
      exact h2
    have hdates : (s :: rest).map (fun r => r.trade_date) =
        (s :: ss).map (fun r => r.trade_date) := by
      simp only [List.map_cons, htail]
    rw [pairwise_dateLe_iff, hdates, ← pairwise_dateLe_iff]
    exact hsort

/-- A successful conversion's adjacent rows satisfy the change-derivation
relation. -/
theorem convert_ok_chain {api : List ApiRecord} {symbol stock_name : String}
    {china_now : Time} {recs : List DbRecord}
    (hok : convert_to_database_format api symbol stock_name china_now = .ok recs) :
    List.Chain' changeDerived recs := by
  rcases convert_ok_cases hok with h | ⟨s, ss, rest, hsorted, hrest, hrecs⟩
  · subst h; exact List.chain'_nil
  · obtain ⟨_, hchain⟩ := computeChangesAux_ok s ss rest hrest
    subst hrecs
    exact hchain

/-- The first row of a successful non-empty conversion keeps null change
fields. -/
theorem convert_ok_head {api : List ApiRecord} {symbol stock_name : String}
    {china_now : Time} {recs : List DbRecord}
    (hok : convert_to_database_format api symbol stock_name china_now = .ok recs)
    (hne : recs ≠ []) :
    (recs.head hne).price_change = none ∧ (recs.head hne).price_change_pct = none := by
  rcases convert_ok_cases hok with h | ⟨s, ss, rest, hsorted, hrest, hrecs⟩
  · exact absurd h hne
  · have hs : s ∈ api.map (convertBase symbol stock_name (marketCodeOf symbol) china_now) := by
      have hperm := List.perm_insertionSort dateLe
        (api.map (convertBase symbol stock_name (marketCodeOf symbol) china_now))
      rw [hsorted] at hperm
      exact hperm.mem_iff.mp (List.mem_cons_self _ _)
    obtain ⟨item, _, hconv⟩ := List.mem_map.mp hs
    subst hrecs
    simp only [List.head_cons]
    rw [← hconv]
    exact ⟨rfl, rfl⟩

/-! ### Claim C8 -/

/-- C8: a successful, non-empty conversion sorts the batch ascending by
trade date; the first row keeps null change and change-percent, every later
row's change fields are the consecutive-row differences against its
immediate predecessor (hence non-null), and every row's turnover equals
volume times close. -/
theorem C8_convert_derived_fields (api : List ApiRecord)
    (symbol stock_name : String) (china_now : Time) (recs : List DbRecord)
    (hok : convert_to_database_format api symbol stock_name china_now = .ok recs)
    (hne : recs ≠ []) :
    List.Pairwise dateLe recs ∧
    (recs.head hne).price_change = none ∧
    (recs.head hne).price_change_pct = none ∧
    List.Chain' changeDerived recs ∧
    (∀ r ∈ recs, r.turnover = (r.volume : ℚ) * r.close_price) := by
  obtain ⟨h1, h2⟩ := convert_ok_head hok hne
  refine ⟨convert_ok_sorted hok, h1, h2, convert_ok_chain hok, fun r hr => ?_⟩
  obtain ⟨item, _, hitem⟩ := convert_ok_mem hok r hr
  have e1 : r.turnover = (eraseChanges r).turnover := rfl
  have e2 : r.volume = (eraseChanges r).volume := rfl
  have e3 : r.close_price = (eraseChanges r).close_price := rfl
  rw [e1, e2, e3, hitem]
  rfl

/-- Concrete three-record batch used by the C8 witness (trading days with
distinct dates and nonzero closes). -/
def c8api : List ApiRecord :=
  [{ ticker := "600519", date := 2, openP := 10, high := 11, low := 9,
     close := 10, volume := 100 },
   { ticker := "600519", date := 3, openP := 10, high := 12, low := 10,
     close := 11, volume := 200 },
   { ticker := "600519", date := 5, openP := 11, high := 13, low := 11,
     close := 12, volume := 300 }]

/-- The converted rows of the C8 witness batch. -/
def c8recs : List DbRecord :=
  ((convert_to_database_format c8api "SH.600519" "x" 7).toOption).getD []

/-- Witness for C8: the three-record batch converts successfully and the
theorem's conclusions hold for it. -/
theorem C8_convert_derived_fields_witness :
    (convert_to_database_format c8api "SH.600519" "x" 7 = .ok c8recs) ∧
    c8recs ≠ [] ∧
    (List.Pairwise dateLe c8recs ∧
      (c8recs.head (by decide)).price_change = none ∧
      (c8recs.head (by decide)).price_change_pct = none ∧
      List.Chain' changeDerived c8recs ∧
      (∀ r ∈ c8recs, r.turnover = (r.volume : ℚ) * r.close_price)) :=
  ⟨rfl, by decide,
    C8_convert_derived_fields c8api "SH.600519" "x" 7 c8recs rfl (by decide)⟩

/-! ### Data integration (`utils/data_integration.py`) -/

/-- Result dictionary of `integrate_stock_data`. -/
structure IntegrateResult where
  success : Bool
  error : Option String
  inserted_count : Nat
  updated_count : Nat
  skipped_count : Nat
  total_processed : Nat
deriving DecidableEq

/-- The natural-key existence query: rows with the given symbol and trade
date. -/
def keyMatches (symbol : String) (d : Date) (r : DbRecord) : Bool :=
  r.symbol == symbol && r.trade_date == d

/-- The force-update overwrite: every field of the incoming record except
`symbol`, `trade_date` and `created_at` is copied onto the existing row
(including its `updated_at`, which the next line of the original then
overwrites with a fresh timestamp `now`). -/
def overwriteRecord (existing incoming : DbRecord) (now : Time) : DbRecord :=
  { incoming with
      symbol := existing.symbol
      trade_date := existing.trade_date
      created_at := existing.created_at
      updated_at := now }

/-- Replace the first element satisfying `p` (the row returned by
`.first()`) by its image under `f`. -/
def replaceFirst {α : Type} (p : α → Bool) (f : α → α) : List α → List α
  | [] => []
  | x :: xs => if p x then f x :: xs else x :: replaceFirst p f xs

/-- One iteration of the per-record loop of `integrate_stock_data`
(existence check, then insert / force-update / skip).  `work` is the
session's view of the table (committed rows plus pending changes, which the
autoflushing existence query sees).  Returns the new view and the
(inserted, updated, skipped) count deltas. -/
def upsertOne (symbol : String) (force_update : Bool) (now : Time)
    (work : List DbRecord) (rec : DbRecord) :
    List DbRecord × Nat × Nat × Nat :=
  match work.find? (keyMatches symbol rec.trade_date) with
  | some _ =>
    if force_update then
      (replaceFirst (keyMatches symbol rec.trade_date)
        (fun existing => overwriteRecord existing rec now) work, 0, 1, 0)
    else (work, 0, 0, 1)
  | none => (work ++ [rec], 1, 0, 0)

/-- Accumulating step of the per-record loop: thread the session view and
add the per-record count deltas. -/
def upsertStep (symbol : String) (force_update : Bool) (now : Time)
    (acc : List DbRecord × Nat × Nat × Nat) (rec : DbRecord) :
    List DbRecord × Nat × Nat × Nat :=
  let w2 := upsertOne symbol force_update now acc.1 rec
  (w2.1, acc.2.1 + w2.2.1, acc.2.2.1 + w2.2.2.1, acc.2.2.2 + w2.2.2.2)

/-- The inner `for record_data in batch` loop over one chunk. -/
def processChunk (symbol : String) (force_update : Bool) (now : Time)
    (work : List DbRecord) (chunk : List DbRecord) :
    List DbRecord × Nat × Nat × Nat :=
  chunk.foldl (upsertStep symbol force_update now) (work, 0, 0, 0)

/-- Structural worker for the chunking: the fuel bounds the number of
chunks (the list length suffices). -/
def chunksOfAux {α : Type} (n : Nat) : Nat → List α → List (List α)
  | _, [] => []
  | 0, _ :: _ => []
  | fuel + 1, x :: xs => (x :: xs).take n :: chunksOfAux n fuel ((x :: xs).drop n)

/-- `range(0, len(l), n)` slicing: consecutive chunks of size `n` (empty
for the zero step that `range` rejects). -/
def chunksOf {α : Type} (n : Nat) (l : List α) : List (List α) :=
  if n = 0 then [] else chunksOfAux n l.length l

/-- Message standing for the exception re-raised when a chunk commit fails. -/
def commitFailMsg : String := "batch commit failed"

/-- The chunked write loop: each chunk is committed at once; a failed commit
rolls the whole chunk back and re-raises, which the outer handler turns
into a zero-count failure result.  `commitOk k` is the outcome of the k-th
commit attempt of this call.  Returns (error?, committed table, inserted,
updated, skipped). -/
def integrateLoop (symbol : String) (force_update : Bool) (now : Time)
    (commitOk : Nat → Bool) :
    List (List DbRecord) → Nat → List DbRecord → Nat → Nat → Nat →
    Option String × List DbRecord × Nat × Nat × Nat
  | [], _, committed, ins, upd, skip => (none, committed, ins, upd, skip)
  | chunk :: rest, k, committed, ins, upd, skip =>
    let w := processChunk symbol force_update now committed chunk
    if commitOk k then
      integrateLoop symbol force_update now commitOk rest (k + 1) w.1
        (ins + w.2.1) (upd + w.2.2.1) (skip + w.2.2.2)
    else (some commitFailMsg, committed, 0, 0, 0)

/-- `batch_size = 1000` of the write loop. -/
def writeBatchSize : Nat := 1000

/-- The `skip_existing` resume check: count of committed rows already
stored for the symbol. -/
def existingCountFor (db : Db) (symbol : String) : Nat :=
  (db.daily.filter (fun r => r.symbol == symbol)).length

/-- The ensure-stock-info step: when no `stock_info` row exists for the
symbol, a minimal row (market code derived from the symbol prefix) is
staged for insertion; otherwise nothing is staged. -/
def pendingStockFor (db : Db) (symbol stock_name : String) (now : Time) :
    Option StockInfoRow :=
  match db.stocks.find? (fun s => s.symbol == symbol) with
  | some _ => none
  | none => some
      { symbol := symbol
        stock_name := stock_name
        stock_code := stockCodeOf symbol
        market_code := marketCodeOf symbol
        is_active := "Y"
        last_sync_date := none
        first_fetch_time := none
        created_at := now
        updated_at := now }

/-- The pending `stock_info` insert (staged before the first chunk commit)
becomes durable exactly when the first commit succeeds. -/
def commitStocks (stocks : List StockInfoRow) (pending : Option StockInfoRow)
    (firstCommitOk : Bool) : List StockInfoRow :=
  match pending, firstCommitOk with
  | some row, true => stocks ++ [row]
  | _, _ => stocks

/-- `integrate_stock_data`: convert the records, short-circuit when
`skip_existing` finds prior rows for the symbol, ensure a `stock_info` row,
then run the chunked upsert loop with per-chunk commits.  The stock-name
lookup (`get_stock_name_from_json`) and the clock are parameters, and
`commitOk` injects commit outcomes.  A conversion exception (raised before
the session is opened) escapes as `.error`; every exception inside the
session is caught and reported as a zero-count failure result. -/
def integrateAfterConvert (symbol : String) (force_update skip_existing : Bool)
    (stock_name : String) (now : Time) (commitOk : Nat → Bool) (db : Db)
    (db_records : List DbRecord) : IntegrateResult × Db :=
  if db_records = [] then
    ({ success := false, error := some "data conversion failed",
       inserted_count := 0, updated_count := 0, skipped_count := 0,
       total_processed := 0 }, db)
  else
    if skip_existing = true ∧ 0 < existingCountFor db symbol ∧ force_update = false then
      ({ success := true, error := none, inserted_count := 0,
         updated_count := 0, skipped_count := existingCountFor db symbol,
         total_processed := 0 }, db)
    else
      match integrateLoop symbol force_update now commitOk
          (chunksOf writeBatchSize db_records) 0 db.daily 0 0 0 with
      | (some e, committed, _, _, _) =>
        ({ success := false, error := some e, inserted_count := 0,
           updated_count := 0, skipped_count := 0, total_processed := 0 },
         { stocks := commitStocks db.stocks
             (pendingStockFor db symbol stock_name now) (commitOk 0),
           daily := committed })
      | (none, committed, ins, upd, skip) =>
        ({ success := true, error := none, inserted_count := ins,
           updated_count := upd, skipped_count := skip,
           total_processed := db_records.length },
         { stocks := commitStocks db.stocks
             (pendingStockFor db symbol stock_name now) (commitOk 0),
           daily := committed })

/-- `integrate_stock_data` itself: conversion happens before the session is
opened, so a conversion exception escapes uncaught (`.error`); otherwise
the post-conversion body runs. -/
def integrate_stock_data (symbol : String) (api_records : List ApiRecord)
    (force_update skip_existing : Bool) (stock_name : String) (now : Time)
    (commitOk : Nat → Bool) (db : Db) :
    Except String (IntegrateResult × Db) :=
  match convert_to_database_format api_records symbol stock_name now with
  | .error e => .error e
  | .ok db_records =>
    .ok (integrateAfterConvert symbol force_update skip_existing stock_name now
      commitOk db db_records)

/-! ### Claim C6 -/

/-- C6: per-record upsert trichotomy, keyed by (symbol, trade_date).  No
existing row: insert.  Existing row with force_update=false: skipped (the
skip counter, not the error path).  Existing row with force_update=true:
the first matching row is overwritten on every field except the natural key
and the original creation timestamp, and its updated-at marker is stamped
with the fresh time. -/
theorem C6_upsert_policy (symbol : String) (force_update : Bool) (now : Time)
    (work : List DbRecord) (rec : DbRecord) :
    (work.find? (keyMatches symbol rec.trade_date) = none →
      upsertOne symbol force_update now work rec = (work ++ [rec], 1, 0, 0)) ∧
    ((∃ existing, work.find? (keyMatches symbol rec.trade_date) = some existing) →
      force_update = false →
      upsertOne symbol force_update now work rec = (work, 0, 0, 1)) ∧
    ((∃ existing, work.find? (keyMatches symbol rec.trade_date) = some existing) →
      force_update = true →
      upsertOne symbol force_update now work rec =
        (replaceFirst (keyMatches symbol rec.trade_date)
          (fun existing => overwriteRecord existing rec now) work, 0, 1, 0)) ∧
    (∀ existing,
      (overwriteRecord existing rec now).symbol = existing.symbol ∧
      (overwriteRecord existing rec now).trade_date = existing.trade_date ∧
      (overwriteRecord existing rec now).created_at = existing.created_at ∧
      (overwriteRecord existing rec now).updated_at = now ∧
      (overwriteRecord existing rec now).stock_name = rec.stock_name ∧
      (overwriteRecord existing rec now).close_price = rec.close_price ∧
      (overwriteRecord existing rec now).open_price = rec.open_price ∧
      (overwriteRecord existing rec now).high_price = rec.high_price ∧
      (overwriteRecord existing rec now).low_price = rec.low_price ∧
      (overwriteRecord existing rec now).volume = rec.volume ∧
      (overwriteRecord existing rec now).turnover = rec.turnover ∧
      (overwriteRecord existing rec now).market_code = rec.market_code ∧
      (overwriteRecord existing rec now).price_change = rec.price_change ∧
      (overwriteRecord existing rec now).price_change_pct = rec.price_change_pct ∧
      (overwriteRecord existing rec now).premium_rate = rec.premium_rate) := by
  refine ⟨fun h => ?_, fun h hf => ?_, fun h hf => ?_, fun existing => ?_⟩
  · rw [upsertOne, h]
  · obtain ⟨e, he⟩ := h
    rw [upsertOne, he, hf]
    rfl
  · obtain ⟨e, he⟩ := h
    rw [upsertOne, he, hf]
    rfl
  · exact ⟨rfl, rfl, rfl, rfl, rfl, rfl, rfl, rfl, rfl, rfl, rfl, rfl, rfl,
      rfl, rfl⟩

/-- A row used by the C6 witness. -/
def c6row : DbRecord :=
  { trade_date := 3, symbol := "SH.600519", stock_name := "a",
    close_price := 10, open_price := 9, high_price := 11, low_price := 8,
    volume := 100, turnover := 1000, market_code := "SH",
    price_change := none, price_change_pct := none, premium_rate := none,
    created_at := 1, updated_at := 1 }

/-- The incoming record of the C6 witness (same key, different payload). -/
def c6incoming : DbRecord :=
  { trade_date := 3, symbol := "SH.600519", stock_name := "b",
    close_price := 20, open_price := 19, high_price := 21, low_price := 18,
    volume := 200, turnover := 4000, market_code := "SH",
    price_change := some 1, price_change_pct := some 5, premium_rate := none,
    created_at := 9, updated_at := 9 }

/-- Witness for C6: all three upsert branches at concrete inputs. -/
theorem C6_upsert_policy_witness :
    (([] : List DbRecord).find? (keyMatches "SH.600519" 3) = none ∧
      upsertOne "SH.600519" false 5 [] c6incoming = ([c6incoming], 1, 0, 0)) ∧
    ([c6row].find? (keyMatches "SH.600519" 3) = some c6row ∧
      upsertOne "SH.600519" false 5 [c6row] c6incoming = ([c6row], 0, 0, 1)) ∧
    ([c6row].find? (keyMatches "SH.600519" 3) = some c6row ∧
      upsertOne "SH.600519" true 5 [c6row] c6incoming =
        (replaceFirst (keyMatches "SH.600519" 3)
          (fun existing => overwriteRecord existing c6incoming 5) [c6row], 0, 1, 0)) := by
  refine ⟨⟨by decide, ?_⟩, ⟨by decide, ?_⟩, ⟨by decide, ?_⟩⟩
  · exact (C6_upsert_policy "SH.600519" false 5 [] c6incoming).1 (by decide)
  · exact (C6_upsert_policy "SH.600519" false 5 [c6row] c6incoming).2.1
      ⟨c6row, by decide⟩ rfl
  · exact (C6_upsert_policy "SH.600519" true 5 [c6row] c6incoming).2.2.1
      ⟨c6row, by decide⟩ rfl

/-! ### Loop characterizations -/

/-- Folding the per-record step from a shifted accumulator only shifts the
resulting counters. -/
theorem processChunk_shift (symbol : String) (force_update : Bool) (now : Time) :
    ∀ (chunk work : List DbRecord) (i u s : Nat),
      List.foldl (upsertStep symbol force_update now) (work, i, u, s) chunk =
        ((processChunk symbol force_update now work chunk).1,
          i + (processChunk symbol force_update now work chunk).2.1,
          u + (processChunk symbol force_update now work chunk).2.2.1,
          s + (processChunk symbol force_update now work chunk).2.2.2)
  | [], work, i, u, s => by simp [processChunk]
  | r :: rs, work, i, u, s => by
    rcases hW : upsertOne symbol force_update now work r with ⟨w1, a, b, c⟩
    simp only [processChunk, List.foldl_cons, upsertStep, hW]
    try dsimp only
    rw [processChunk_shift symbol force_update now rs w1 (i + a) (u + b) (s + c),
      processChunk_shift symbol force_update now rs w1 (0 + a) (0 + b) (0 + c)]
    dsimp only
    rw [Nat.zero_add a, Nat.zero_add b, Nat.zero_add c,
      Nat.add_assoc, Nat.add_assoc, Nat.add_assoc]

/-- Processing a concatenation is processing the parts in sequence. -/
theorem processChunk_append (symbol : String) (force_update : Bool) (now : Time)
    (a b work w1 : List DbRecord) (i u s : Nat)
    (hA : processChunk symbol force_update now work a = (w1, i, u, s)) :
    processChunk symbol force_update now work (a ++ b) =
      ((processChunk symbol force_update now w1 b).1,
        i + (processChunk symbol force_update now w1 b).2.1,
        u + (processChunk symbol force_update now w1 b).2.2.1,
        s + (processChunk symbol force_update now w1 b).2.2.2) := by
  have h1 : processChunk symbol force_update now work (a ++ b) =
      List.foldl (upsertStep symbol force_update now)
        (processChunk symbol force_update now work a) b := by
    simp only [processChunk, List.foldl_append]
  rw [h1, hA, processChunk_shift]

theorem chunksOfAux_flatten {α : Type} (n : Nat) (hn : n ≠ 0) :
    ∀ (fuel : Nat) (l : List α), l.length ≤ fuel →
      (chunksOfAux n fuel l).flatten = l
  | _, [], _ => by simp [chunksOfAux]
  | 0, x :: xs, hfuel => by simp at hfuel
  | fuel + 1, x :: xs, hfuel => by
    rw [chunksOfAux, List.flatten_cons,
      chunksOfAux_flatten n hn fuel ((x :: xs).drop n) ?_, List.take_append_drop]
    have hp : 0 < n := Nat.pos_of_ne_zero hn
    simp only [List.length_drop, List.length_cons]
    simp only [List.length_cons] at hfuel
    omega

/-- With a positive chunk size, the chunks concatenate back to the list. -/
theorem chunksOf_flatten {α : Type} (n : Nat) (hn : n ≠ 0) (l : List α) :
    (chunksOf n l).flatten = l := by
  rw [chunksOf, if_neg hn]
  exact chunksOfAux_flatten n hn l.length l (le_refl _)

/-- When every commit succeeds, the chunked loop behaves as one pass of the
per-record loop over the concatenation of the chunks. -/
theorem integrateLoop_all_ok (symbol : String) (force_update : Bool)
    (now : Time) (commitOk : Nat → Bool) (hok : ∀ k, commitOk k = true) :
    ∀ (chunks : List (List DbRecord)) (k : Nat) (committed : List DbRecord)
      (ins upd skip : Nat),
      integrateLoop symbol force_update now commitOk chunks k committed ins upd skip =
        (none,
          (processChunk symbol force_update now committed chunks.flatten).1,
          ins + (processChunk symbol force_update now committed chunks.flatten).2.1,
          upd + (processChunk symbol force_update now committed chunks.flatten).2.2.1,
          skip + (processChunk symbol force_update now committed chunks.flatten).2.2.2)
  | [], k, committed, ins, upd, skip => by
    simp [integrateLoop, processChunk]
  | chunk :: rest, k, committed, ins, upd, skip => by
    rcases hW : processChunk symbol force_update now committed chunk with ⟨w1, a, b, c⟩
    simp only [integrateLoop, hW, hok k, if_true]
    try dsimp only
    rw [integrateLoop_all_ok symbol force_update now commitOk hok rest (k + 1) w1
      (ins + a) (upd + b) (skip + c)]
    rw [List.flatten_cons,
      processChunk_append symbol force_update now chunk rest.flatten committed w1 a b c hW]
    dsimp only
    rw [Nat.add_assoc, Nat.add_assoc, Nat.add_assoc]

/-- With `force_update=false` the per-record loop only ever appends rows,
appends exactly as many rows as it counts inserted, and every appended row
is one of the incoming records. -/
theorem processChunk_appends (symbol : String) (now : Time) :
    ∀ (recs work : List DbRecord),
      ∃ A u s,
        processChunk symbol false now work recs = (work ++ A, A.length, u, s) ∧
        ∀ r ∈ A, r ∈ recs
  | [], work => ⟨[], 0, 0, by simp [processChunk], by simp⟩
  | r :: rs, work => by
    cases hF : work.find? (keyMatches symbol r.trade_date) with
    | none =>
      obtain ⟨A', u', s', hEq, hMem⟩ := processChunk_appends symbol now rs (work ++ [r])
      have hstep : processChunk symbol false now work (r :: rs) =
          List.foldl (upsertStep symbol false now) (work ++ [r], 1, 0, 0) rs := by
        simp [processChunk, upsertStep, upsertOne, hF]
      refine ⟨r :: A', u', s', ?_, ?_⟩
      · rw [hstep, processChunk_shift symbol false now rs (work ++ [r]) 1 0 0, hEq]
        dsimp only
        rw [List.append_assoc, Nat.add_comm 1 A'.length, Nat.zero_add u',
          Nat.zero_add s']
        rfl
      · intro x hx
        cases hx with
        | head => exact List.mem_cons_self _ _
        | tail _ hx2 => exact List.mem_cons_of_mem _ (hMem x hx2)
    | some e =>
      obtain ⟨A', u', s', hEq, hMem⟩ := processChunk_appends symbol now rs work
      have hstep : processChunk symbol false now work (r :: rs) =
          List.foldl (upsertStep symbol false now) (work, 0, 0, 1) rs := by
        simp [processChunk, upsertStep, upsertOne, hF]
      refine ⟨A', u', s' + 1, ?_,
        fun x hx => List.mem_cons_of_mem _ (hMem x hx)⟩
      rw [hstep, processChunk_shift symbol false now rs work 0 0 1, hEq]
      dsimp only
      rw [Nat.zero_add A'.length, Nat.zero_add u', Nat.add_comm 1 s']

/-- If nothing in the view matches the head record's key, the per-record
loop inserts at least one row. -/
theorem processChunk_inserts_head (symbol : String) (now : Time)
    (force_update : Bool) (r : DbRecord) (rs work : List DbRecord)
    (hF : work.find? (keyMatches symbol r.trade_date) = none) :
    0 < (processChunk symbol force_update now work (r :: rs)).2.1 := by
  have hstep : processChunk symbol force_update now work (r :: rs) =
      List.foldl (upsertStep symbol force_update now) (work ++ [r], 1, 0, 0) rs := by
    simp [processChunk, upsertStep, upsertOne, hF]
  rw [hstep, processChunk_shift symbol force_update now rs (work ++ [r]) 1 0 0]
  dsimp only
  omega

/-- Every row of a successful conversion carries the requested symbol. -/
theorem convert_ok_symbol {api : List ApiRecord} {symbol stock_name : String}
    {china_now : Time} {recs : List DbRecord}
    (hok : convert_to_database_format api symbol stock_name china_now = .ok recs) :
    ∀ r ∈ recs, r.symbol = symbol := by
  intro r hr
  obtain ⟨item, _, hitem⟩ := convert_ok_mem hok r hr
  have h1 : r.symbol = (eraseChanges r).symbol := rfl
  rw [h1, hitem]
  rfl

/-! ### Time invariance of the conversion -/

/-- Restamp the two row timestamps. -/
def setTimes (t : Time) (r : DbRecord) : DbRecord :=
  { r with created_at := t, updated_at := t }

theorem orderedInsert_setTimes (t : Time) (a : DbRecord) :
    ∀ l : List DbRecord,
      List.orderedInsert dateLe (setTimes t a) (l.map (setTimes t)) =
        (List.orderedInsert dateLe a l).map (setTimes t)
  | [] => rfl
  | b :: bs => by
    simp only [List.map_cons, List.orderedInsert]
    by_cases h : dateLe a b
    · rw [if_pos h, if_pos (show dateLe (setTimes t a) (setTimes t b) from h)]
      rfl
    · rw [if_neg h, if_neg (show ¬dateLe (setTimes t a) (setTimes t b) from h),
        orderedInsert_setTimes t a bs]
      rfl

theorem insertionSort_setTimes (t : Time) :
    ∀ l : List DbRecord,
      List.insertionSort dateLe (l.map (setTimes t)) =
        (List.insertionSort dateLe l).map (setTimes t)
  | [] => rfl
  | a :: as => by
    rw [List.map_cons, List.insertionSort, List.insertionSort,
      insertionSort_setTimes t as, orderedInsert_setTimes]

theorem computeChangesAux_setTimes (t : Time) :
    ∀ (prev : DbRecord) (l : List DbRecord),
      computeChangesAux (setTimes t prev) (l.map (setTimes t)) =
        (computeChangesAux prev l).map (List.map (setTimes t))
  | prev, [] => rfl
  | prev, r :: rs => by
    rw [List.map_cons, computeChangesAux, computeChangesAux]
    by_cases hz : prev.close_price = 0
    · have hz' : (setTimes t prev).close_price = 0 := hz
      rw [if_pos hz, if_pos hz']
      rfl
    · have hz' : ¬(setTimes t prev).close_price = 0 := hz
      rw [if_neg hz, if_neg hz', computeChangesAux_setTimes t r rs]
      cases computeChangesAux r rs with
      | error e => rfl
      | ok rest => rfl

/-- The conversion result at one timestamp determines it at any other: only
the row timestamps differ. -/
theorem convert_setTimes (api : List ApiRecord) (symbol stock_name : String)
    (t t' : Time) :
    convert_to_database_format api symbol stock_name t' =
      (convert_to_database_format api symbol stock_name t).map
        (List.map (setTimes t')) := by
  unfold convert_to_database_format
  have hbase : api.map (convertBase symbol stock_name (marketCodeOf symbol) t') =
      (api.map (convertBase symbol stock_name (marketCodeOf symbol) t)).map
        (setTimes t') := by
    rw [List.map_map]
    rfl
  rw [hbase, insertionSort_setTimes]
  cases List.insertionSort dateLe
      (api.map (convertBase symbol stock_name (marketCodeOf symbol) t)) with
  | nil => rfl
  | cons s ss =>
    rw [List.map_cons]
    dsimp only
    rw [computeChangesAux_setTimes t' s ss]
    cases computeChangesAux s ss with
    | error e => rfl
    | ok rest => rfl

/-! ### Claim C3 -/

/-- C3: with forceUpdate=false (and the bulk path's skip_existing resume
switch), a first sync into a store holding no rows for the symbol inserts
its rows, and repeating the identical sync inserts zero additional rows and
reports a skipped_count equal to the row count committed by the first run;
the store is unchanged by the second run. -/
theorem C3_second_run_idempotent (symbol : String) (api : List ApiRecord)
    (stock_name : String) (now1 now2 : Time) (ok1 ok2 : Nat → Bool) (db : Db)
    (recs : List DbRecord)
    (hconv : convert_to_database_format api symbol stock_name now1 = .ok recs)
    (hne : recs ≠ [])
    (hempty : db.daily.filter (fun r => r.symbol == symbol) = [])
    (hok1 : ∀ k, ok1 k = true) :
    ∃ res1 db1 res2 db2,
      integrate_stock_data symbol api false true stock_name now1 ok1 db =
        .ok (res1, db1) ∧
      integrate_stock_data symbol api false true stock_name now2 ok2 db1 =
        .ok (res2, db2) ∧
      res1.success = true ∧ 0 < res1.inserted_count ∧
      res2.success = true ∧ res2.inserted_count = 0 ∧
      res2.skipped_count = res1.inserted_count ∧ db2 = db1 := by
  classical
  obtain ⟨s, rest, hrecs⟩ : ∃ s rest, recs = s :: rest := by
    cases recs with
    | nil => exact absurd rfl hne
    | cons s rest => exact ⟨s, rest, rfl⟩
  have hsym : ∀ r ∈ recs, r.symbol = symbol := convert_ok_symbol hconv
  have hcount0 : existingCountFor db symbol = 0 := by
    rw [existingCountFor, hempty]
    rfl
  obtain ⟨A, u1, s1, hAeq, hAmem⟩ := processChunk_appends symbol now1 recs db.daily
  have hheadF : db.daily.find? (keyMatches symbol s.trade_date) = none := by
    rw [List.find?_eq_none]
    intro x hx hkey
    rw [keyMatches, Bool.and_eq_true] at hkey
    have hxf : x ∈ db.daily.filter (fun r => r.symbol == symbol) :=
      List.mem_filter.mpr ⟨hx, hkey.1⟩
    rw [hempty] at hxf
    cases hxf
  have hpos : 0 < (processChunk symbol false now1 db.daily recs).2.1 := by
    rw [hrecs]
    exact processChunk_inserts_head symbol now1 false s rest db.daily hheadF
  have hApos : 0 < A.length := by
    rw [hAeq] at hpos
    exact hpos
  have hloop := integrateLoop_all_ok symbol false now1 ok1 hok1
    (chunksOf writeBatchSize recs) 0 db.daily 0 0 0
  rw [chunksOf_flatten writeBatchSize (by decide) recs, hAeq] at hloop
  dsimp only at hloop
  rw [Nat.zero_add, Nat.zero_add, Nat.zero_add] at hloop
  have hskip1 : ¬(true = true ∧ 0 < existingCountFor db symbol ∧ false = false) := by
    simp [hcount0]
  have hrun1 : integrate_stock_data symbol api false true stock_name now1 ok1 db =
      .ok ({ success := true, error := none, inserted_count := A.length,
             updated_count := u1, skipped_count := s1,
             total_processed := recs.length },
           { stocks := commitStocks db.stocks
               (pendingStockFor db symbol stock_name now1) (ok1 0),
             daily := db.daily ++ A }) := by
    unfold integrate_stock_data
    rw [hconv]
    dsimp only
    unfold integrateAfterConvert
    rw [if_neg hne, if_neg hskip1, hloop]
  have hconv2 : convert_to_database_format api symbol stock_name now2 =
      .ok (recs.map (setTimes now2)) := by
    rw [convert_setTimes api symbol stock_name now1 now2, hconv]
    rfl
  have hne2 : recs.map (setTimes now2) ≠ [] := by
    simp [hrecs]
  have hfilter1 : (db.daily ++ A).filter (fun r => r.symbol == symbol) = A := by
    rw [List.filter_append, hempty, List.nil_append]
    refine List.filter_eq_self.mpr ?_
    intro r hr
    have hs := hsym r (hAmem r hr)
    simp [hs]
  have hcount1 : existingCountFor
      { stocks := commitStocks db.stocks
          (pendingStockFor db symbol stock_name now1) (ok1 0),
        daily := db.daily ++ A } symbol = A.length := by
    rw [existingCountFor]
    dsimp only
    rw [hfilter1]
  have hcount1pos : 0 < existingCountFor
      { stocks := commitStocks db.stocks
          (pendingStockFor db symbol stock_name now1) (ok1 0),
        daily := db.daily ++ A } symbol := by
    rw [hcount1]
    exact hApos
  have hrun2 : integrate_stock_data symbol api false true stock_name now2 ok2
      { stocks := commitStocks db.stocks
          (pendingStockFor db symbol stock_name now1) (ok1 0),
        daily := db.daily ++ A } =
      .ok ({ success := true, error := none, inserted_count := 0,
             updated_count := 0,
             skipped_count := existingCountFor
               { stocks := commitStocks db.stocks
                   (pendingStockFor db symbol stock_name now1) (ok1 0),
                 daily := db.daily ++ A } symbol,
             total_processed := 0 },
           { stocks := commitStocks db.stocks
               (pendingStockFor db symbol stock_name now1) (ok1 0),
             daily := db.daily ++ A }) := by
    unfold integrate_stock_data
    rw [hconv2]
    dsimp only
    unfold integrateAfterConvert
    rw [if_neg hne2, if_pos ⟨rfl, hcount1pos, rfl⟩]
  refine ⟨_, _, _, _, hrun1, hrun2, rfl, hApos, rfl, rfl, ?_, rfl⟩
  exact hcount1

/-- Concrete one-record batch for the C3 witness. -/
def c3api : List ApiRecord :=
  [{ ticker := "600519", date := 4, openP := 1, high := 2, low := 1,
     close := 2, volume := 10 }]

/-- Its conversion result. -/
def c3recs : List DbRecord :=
  ((convert_to_database_format c3api "SH.600519" "n" 1).toOption).getD []

/-- Witness for C3 at a concrete one-record sync into an empty store. -/
theorem C3_second_run_idempotent_witness :
    (convert_to_database_format c3api "SH.600519" "n" 1 = .ok c3recs) ∧
    c3recs ≠ [] ∧
    (([] : List DbRecord).filter (fun r => r.symbol == "SH.600519") = []) ∧
    (∀ k : Nat, (fun _ : Nat => true) k = true) ∧
    (∃ res1 db1 res2 db2,
      integrate_stock_data "SH.600519" c3api false true "n" 1 (fun _ => true)
          { stocks := [], daily := [] } = .ok (res1, db1) ∧
      integrate_stock_data "SH.600519" c3api false true "n" 2 (fun _ => true)
          db1 = .ok (res2, db2) ∧
      res1.success = true ∧ 0 < res1.inserted_count ∧
      res2.success = true ∧ res2.inserted_count = 0 ∧
      res2.skipped_count = res1.inserted_count ∧ db2 = db1) :=
  ⟨rfl, by decide, rfl, fun _ => rfl,
    C3_second_run_idempotent "SH.600519" c3api "n" 1 2 (fun _ => true)
      (fun _ => true) { stocks := [], daily := [] } c3recs rfl (by decide) rfl
      (fun _ => rfl)⟩

/-! ### Claim C1 -/

/-- The store state after a call to `integrate_stock_data` (unchanged when
the call raised before opening the session). -/
def integrateDbAfter (symbol : String) (api_records : List ApiRecord)
    (force_update skip_existing : Bool) (stock_name : String) (now : Time)
    (commitOk : Nat → Bool) (db : Db) : Db :=
  match integrate_stock_data symbol api_records force_update skip_existing
      stock_name now commitOk db with
  | .error _ => db
  | .ok p => p.2

/-- The committed stocks table never gains a checkpoint: the only possible
change is appending a fresh row whose `last_sync_date` is None. -/
theorem checkpointOf_commitStocks (db : Db) (symbol stock_name : String)
    (now : Time) (b : Bool) (d : List DbRecord) (s : String) :
    checkpointOf
      { stocks := commitStocks db.stocks (pendingStockFor db symbol stock_name now) b,
        daily := d } s = checkpointOf db s := by
  rw [checkpointOf, checkpointOf]
  unfold pendingStockFor
  cases hf : db.stocks.find? (fun st => st.symbol == symbol) with
  | some x => rfl
  | none =>
    cases b with
    | false => rfl
    | true =>
      dsimp only [commitStocks]
      rw [List.find?_append]
      cases hf2 : db.stocks.find? (fun st => st.symbol == s) with
      | some y => rfl
      | none =>
        dsimp only [Option.or]
        by_cases hrow : (symbol == s) = true
        · simp [List.find?, hrow]
        · simp [List.find?, hrow]

/-- Failing the commit of the current chunk discards that chunk's work,
leaves the table as committed so far, and reports the failure with zero
counts. -/
theorem integrateLoop_commit_fail (symbol : String) (force_update : Bool)
    (now : Time) (commitOk : Nat → Bool) (chunk : List DbRecord)
    (rest : List (List DbRecord)) (k : Nat) (committed : List DbRecord)
    (ins upd skip : Nat) (h : commitOk k = false) :
    integrateLoop symbol force_update now commitOk (chunk :: rest) k committed
        ins upd skip = (some commitFailMsg, committed, 0, 0, 0) := by
  simp [integrateLoop, h]

/-- C1 (amended): atomicity holds per 1000-record chunk, not for the whole
entity batch.  When a chunk's commit fails, none of that chunk's rows (nor
any later chunk's) is committed and the caller sees the failure; and
`integrate_stock_data` never moves any entity's checkpoint — but rows of
earlier successfully committed chunks of the same batch remain. -/
theorem C1_amended_chunk_atomicity :
    (∀ (symbol : String) (force_update : Bool) (now : Time)
        (commitOk : Nat → Bool) (chunk : List DbRecord)
        (rest : List (List DbRecord)) (k : Nat) (committed : List DbRecord)
        (ins upd skip : Nat),
      commitOk k = false →
      integrateLoop symbol force_update now commitOk (chunk :: rest) k committed
          ins upd skip = (some commitFailMsg, committed, 0, 0, 0)) ∧
    (∀ (symbol : String) (api_records : List ApiRecord)
        (force_update skip_existing : Bool) (stock_name : String) (now : Time)
        (commitOk : Nat → Bool) (db : Db) (s : String),
      checkpointOf (integrateDbAfter symbol api_records force_update
          skip_existing stock_name now commitOk db) s = checkpointOf db s) := by
  constructor
  · intro symbol force_update now commitOk chunk rest k committed ins upd skip h
    exact integrateLoop_commit_fail symbol force_update now commitOk chunk rest k
      committed ins upd skip h
  · intro symbol api_records force_update skip_existing stock_name now commitOk db s
    unfold integrateDbAfter integrate_stock_data
    cases convert_to_database_format api_records symbol stock_name now with
    | error e => rfl
    | ok db_records =>
      dsimp only
      unfold integrateAfterConvert
      by_cases h1 : db_records = []
      · rw [if_pos h1]
      · rw [if_neg h1]
        by_cases h2 : skip_existing = true ∧ 0 < existingCountFor db symbol ∧
            force_update = false
        · rw [if_pos h2]
        · rw [if_neg h2]
          rcases hL : integrateLoop symbol force_update now commitOk
              (chunksOf writeBatchSize db_records) 0 db.daily 0 0 0 with
            ⟨err, committed, i2, u2, s2⟩
          cases err with
          | none =>
            exact checkpointOf_commitStocks db symbol stock_name now (commitOk 0) committed s
          | some e =>
            exact checkpointOf_commitStocks db symbol stock_name now (commitOk 0) committed s

/-- Witness for the amended C1: a failing commit at a concrete chunk, and
checkpoint preservation at a concrete call. -/
theorem C1_amended_chunk_atomicity_witness :
    ((fun _ : Nat => false) 0 = false ∧
      integrateLoop "A" false 0 (fun _ => false) [[]] 0 [] 0 0 0 =
        (some commitFailMsg, [], 0, 0, 0)) ∧
    checkpointOf (integrateDbAfter "A" [] false true "n" 0 (fun _ => true)
        { stocks := [], daily := [] }) "A" =
      checkpointOf { stocks := [], daily := [] } "A" :=
  ⟨⟨rfl, C1_amended_chunk_atomicity.1 "A" false 0 (fun _ => false) [] [] 0 []
      0 0 0 rfl⟩,
    C1_amended_chunk_atomicity.2 "A" [] false true "n" 0 (fun _ => true)
      { stocks := [], daily := [] } "A"⟩

/-- The repeated record of the C1 counterexample batch (trade date 5). -/
def c1item5 : ApiRecord :=
  { ticker := "A", date := 5, openP := 1, high := 1, low := 1, close := 1,
    volume := 1 }

/-- The last record of the C1 counterexample batch (trade date 9). -/
def c1item9 : ApiRecord :=
  { ticker := "A", date := 9, openP := 1, high := 1, low := 1, close := 1,
    volume := 1 }

/-- 1001 records for one entity: 1000 sharing one trade date (the first
inserts, the rest are duplicates of the pending row) plus one more date
that lands in the second 1000-row chunk. -/
def c1api : List ApiRecord := List.replicate 1000 c1item5 ++ [c1item9]

/-- The converted base row for date 5. -/
def c1base5 : DbRecord := convertBase "A" "n" (marketCodeOf "A") 0 c1item5

/-- The converted base row for date 9. -/
def c1base9 : DbRecord := convertBase "A" "n" (marketCodeOf "A") 0 c1item9

/-- Date-5 row after the change loop (predecessor is the same row). -/
def c1chg5 : DbRecord :=
  { c1base5 with
      price_change := some (c1base5.close_price - c1base5.close_price),
      price_change_pct :=
        some ((c1base5.close_price - c1base5.close_price) / c1base5.close_price * 100) }

/-- Date-9 row after the change loop (predecessor is the date-5 row). -/
def c1chg9 : DbRecord :=
  { c1base9 with
      price_change := some (c1base9.close_price - c1base5.close_price),
      price_change_pct :=
        some ((c1base9.close_price - c1base5.close_price) / c1base5.close_price * 100) }

theorem c1cca : ∀ n : Nat,
    computeChangesAux c1base5 (List.replicate n c1base5 ++ [c1base9]) =
      .ok (List.replicate n c1chg5 ++ [c1chg9])
  | 0 => by rfl
  | n + 1 => by
    rw [List.replicate_succ, List.cons_append, computeChangesAux,
      if_neg (by decide : ¬c1base5.close_price = 0), c1cca n,
      List.replicate_succ c1chg5 n, List.cons_append]
    rfl

theorem c1sorted :
    List.insertionSort dateLe (List.replicate 1000 c1base5 ++ [c1base9]) =
      List.replicate 1000 c1base5 ++ [c1base9] := by
  refine List.Sorted.insertionSort_eq ?_
  refine List.pairwise_append.mpr ⟨?_, ?_, ?_⟩
  · exact List.pairwise_replicate.mpr (Or.inr (by decide))
  · exact List.pairwise_singleton _ _
  · intro a ha b hb
    rw [List.eq_of_mem_replicate ha, List.mem_singleton.mp hb]
    decide

theorem c1conv : convert_to_database_format c1api "A" "n" 0 =
    .ok (c1base5 :: (List.replicate 999 c1chg5 ++ [c1chg9])) := by
  unfold convert_to_database_format
  have hmap : c1api.map (convertBase "A" "n" (marketCodeOf "A") 0) =
      List.replicate 1000 c1base5 ++ [c1base9] := by
    simp only [c1api, List.map_append, List.map_replicate, List.map_cons,
      List.map_nil]
    rfl
  rw [hmap, c1sorted,
    show (1000 : Nat) = 999 + 1 from rfl, List.replicate_succ, List.cons_append]
  dsimp only
  rw [c1cca 999]

theorem c1chunks :
    chunksOf writeBatchSize (c1base5 :: (List.replicate 999 c1chg5 ++ [c1chg9])) =
      [c1base5 :: List.replicate 999 c1chg5, [c1chg9]] := by
  rw [chunksOf, if_neg (by decide : ¬writeBatchSize = 0)]
  have hlen : (c1base5 :: (List.replicate 999 c1chg5 ++ [c1chg9])).length = 1001 := by
    simp only [List.length_cons, List.length_append, List.length_replicate,
      List.length_singleton]
    rfl
  have htake :
      (c1base5 :: (List.replicate 999 c1chg5 ++ [c1chg9])).take writeBatchSize =
        c1base5 :: List.replicate 999 c1chg5 := by
    rw [show writeBatchSize = 999 + 1 from rfl, List.take_succ_cons,
      List.take_append_eq_append_take, List.take_replicate, List.length_replicate,
      Nat.min_self, Nat.sub_self, List.take_zero, List.append_nil]
  have hdrop :
      (c1base5 :: (List.replicate 999 c1chg5 ++ [c1chg9])).drop writeBatchSize =
        [c1chg9] := by
    rw [show writeBatchSize = 999 + 1 from rfl, List.drop_succ_cons,
      List.drop_append_eq_append_drop, List.drop_replicate, List.length_replicate,
      Nat.sub_self, List.replicate_zero, List.drop_zero, List.nil_append]
  rw [hlen, show (1001 : Nat) = 1000 + 1 from rfl, chunksOfAux, htake, hdrop]
  rfl

theorem c1fold_skip : ∀ (n k : Nat),
    List.foldl (upsertStep "A" false 0) ([c1base5], 1, 0, k)
        (List.replicate n c1chg5) =
      ([c1base5], 1, 0, k + n)
  | 0, k => by simp
  | n + 1, k => by
    rw [List.replicate_succ, List.foldl_cons]
    have hf : List.find? (keyMatches "A" c1chg5.trade_date) [c1base5] =
        some c1base5 :=
      List.find?_cons_of_pos _ (by decide)
    have hstep : upsertStep "A" false 0 ([c1base5], 1, 0, k) c1chg5 =
        ([c1base5], 1, 0, k + 1) := by
      simp [upsertStep, upsertOne, hf]
    rw [hstep, c1fold_skip n (k + 1), Nat.add_assoc, Nat.add_comm 1 n]

theorem c1pc1 :
    processChunk "A" false 0 [] (c1base5 :: List.replicate 999 c1chg5) =
      ([c1base5], 1, 0, 999) := by
  rw [processChunk, List.foldl_cons]
  have hstep : upsertStep "A" false 0 ([], 0, 0, 0) c1base5 = ([c1base5], 1, 0, 0) := by
    simp [upsertStep, upsertOne]
  rw [hstep, c1fold_skip 999 0]

theorem c1pc2 :
    processChunk "A" false 0 [c1base5] [c1chg9] = ([c1base5, c1chg9], 1, 0, 0) := by
  have hf : List.find? (keyMatches "A" c1chg9.trade_date) [c1base5] = none := by
    rw [List.find?_cons_of_neg _ (by decide), List.find?_nil]
  simp [processChunk, upsertStep, upsertOne, hf]

/-- A successful chunk commit: the loop moves on to the remaining chunks
with the chunk's work committed and the counters advanced. -/
theorem integrateLoop_commit_ok_step (symbol : String) (force_update : Bool)
    (now : Time) (commitOk : Nat → Bool) (chunk : List DbRecord)
    (rest : List (List DbRecord)) (k : Nat) (committed w1 : List DbRecord)
    (ins upd skip a b c : Nat)
    (hpc : processChunk symbol force_update now committed chunk = (w1, a, b, c))
    (hk : commitOk k = true) :
    integrateLoop symbol force_update now commitOk (chunk :: rest) k committed
        ins upd skip =
      integrateLoop symbol force_update now commitOk rest (k + 1) w1
        (ins + a) (upd + b) (skip + c) := by
  simp only [integrateLoop, hpc]
  rw [hk]
  rfl

theorem c1loop : integrateLoop "A" false 0 (fun k => k == 0)
    [c1base5 :: List.replicate 999 c1chg5, [c1chg9]] 0 [] 0 0 0 =
      (some commitFailMsg, [c1base5], 0, 0, 0) := by
  rw [integrateLoop_commit_ok_step "A" false 0 (fun k => k == 0)
    (c1base5 :: List.replicate 999 c1chg5) [[c1chg9]] 0 [] [c1base5]
    0 0 0 1 0 999 c1pc1 rfl]
  exact integrateLoop_commit_fail "A" false 0 (fun k => k == 0) [c1chg9] [] 1
    [c1base5] (0 + 1) (0 + 0) (0 + 999) rfl

/-- C1 counterexample: on a 1001-record batch, the first 1000-row chunk's
commit succeeds and the second chunk's commit fails.  The entity is counted
as failed (success=false, the commit error reported, zero counts) — yet one
row of the entity's batch, from the already committed first chunk, remains
durably stored, refuting "no row of that batch remains committed". -/
theorem C1_claim_counterexample :
    integrate_stock_data "A" c1api false true "n" 0 (fun k => k == 0)
        { stocks := [], daily := [] } =
      .ok ({ success := false, error := some commitFailMsg, inserted_count := 0,
             updated_count := 0, skipped_count := 0, total_processed := 0 },
           { stocks := [{ symbol := "A", stock_name := "n",
                          stock_code := stockCodeOf "A",
                          market_code := marketCodeOf "A", is_active := "Y",
                          last_sync_date := none, first_fetch_time := none,
                          created_at := 0, updated_at := 0 }],
             daily := [c1base5] }) := by
  unfold integrate_stock_data
  rw [c1conv]
  dsimp only
  unfold integrateAfterConvert
  rw [if_neg (List.cons_ne_nil _ _),
    if_neg (by decide :
      ¬(true = true ∧
        0 < existingCountFor { stocks := [], daily := [] } "A" ∧ false = false)),
    c1chunks, c1loop]
  rfl

/-! ### Single-stock sync (`app/services/single_stock_sync.py`) -/

/-- Result dictionary of `sync_single_stock_history`. -/
structure SingleSyncResult where
  success : Bool
  action : String
  inserted_count : Nat
  total_records : Nat
  latest_sync_date : Option Date
  error : Option String
deriving DecidableEq

/-- The resume boundary: the day after the stored checkpoint when present,
else the default earliest date 2000-01-01. -/
def resumeStartDate : Option Date → Date
  | some d => d + 1
  | none => epoch2000

/-- The running-maximum update of `latest_date` in the insert loop. -/
def maxUpdate (latest : Option Date) (d : Date) : Option Date :=
  match latest with
  | none => some d
  | some m => if m < d then some d else some m

/-- The insert loop of `sync_single_stock_history`: add records whose
(symbol, trade_date) is absent from the session view, counting inserts and
tracking the running maximum inserted trade date. -/
def insertLoop (symbol : String) :
    List DbRecord → List DbRecord → Nat → Option Date →
    List DbRecord × Nat × Option Date
  | work, [], inserted, latest => (work, inserted, latest)
  | work, r :: rs, inserted, latest =>
    match work.find? (keyMatches symbol r.trade_date) with
    | some _ => insertLoop symbol work rs inserted latest
    | none =>
      insertLoop symbol (work ++ [r]) rs (inserted + 1)
        (maxUpdate latest r.trade_date)

/-- Find the entity's `stock_info` row; when absent, create and commit a
fresh one (stock name from the lookup service, falling back to the symbol;
no checkpoint yet). -/
def ensureStockInfo (db : Db) (symbol : String) (nameFromApi : Option String)
    (now : Time) : StockInfoRow × Db :=
  match db.stocks.find? (fun s => s.symbol == symbol) with
  | some s => (s, db)
  | none =>
    let row : StockInfoRow :=
      { symbol := symbol
        stock_name := nameFromApi.getD symbol
        stock_code := stockCodeOf symbol
        market_code := marketCodeOf symbol
        is_active := "Y"
        last_sync_date := none
        first_fetch_time := some now
        created_at := now
        updated_at := now }
    (row, { stocks := db.stocks ++ [row], daily := db.daily })

/-- The failure dictionary built by the outer exception handler. -/
def singleSyncFailed (e : String) : SingleSyncResult :=
  { success := false, action := "failed", inserted_count := 0,
    total_records := 0, latest_sync_date := none, error := some e }

/-- Everything after the fetch call: empty-response short-circuit,
conversion, the insert loop, the row commit, and the checkpoint-update
commit.  `okA` is the outcome of the row commit, `okB` of the checkpoint
commit; a failed commit propagates to the outer handler with the store
keeping whatever was already durable. -/
def syncAfterFetch (symbol : String) (info : StockInfoRow) (now : Time)
    (okA okB : Bool) (db1 : Db)
    (fetched : Except String (List ApiRecord)) : SingleSyncResult × Db :=
  match fetched with
  | .error e => (singleSyncFailed e, db1)
  | .ok records =>
    if records = [] then
      ({ success := true, action := "up_to_date", inserted_count := 0,
         total_records := 0, latest_sync_date := none, error := none }, db1)
    else
      match convert_to_database_format records symbol info.stock_name now with
      | .error e => (singleSyncFailed e, db1)
      | .ok db_records =>
        let t := insertLoop symbol db1.daily db_records 0 none
        if okA then
          if 0 < t.2.1 ∧ t.2.2.isSome then
            if okB then
              ({ success := true, action := "completed",
                 inserted_count := t.2.1, total_records := records.length,
                 latest_sync_date := t.2.2, error := none },
               { stocks := replaceFirst (fun s => s.symbol == symbol)
                   (fun s => { s with last_sync_date := t.2.2, updated_at := now })
                   db1.stocks,
                 daily := t.1 })
            else
              (singleSyncFailed commitFailMsg,
               { stocks := db1.stocks, daily := t.1 })
          else
            ({ success := true, action := "completed",
               inserted_count := t.2.1, total_records := records.length,
               latest_sync_date := t.2.2, error := none },
             { stocks := db1.stocks, daily := t.1 })
        else (singleSyncFailed commitFailMsg, db1)

/-- `sync_single_stock_history`: ensure the `stock_info` row, decide the
fetch window start once from the stored checkpoint, fetch, then run the
post-fetch phase.  The data-source client, the stock-name lookup, the
clock and the two commit outcomes are parameters. -/
def sync_single_stock_history (symbol : String)
    (fetch : Date → Except String (List ApiRecord))
    (nameFromApi : Option String) (now : Time) (okA okB : Bool) (db : Db) :
    SingleSyncResult × Db :=
  let p := ensureStockInfo db symbol nameFromApi now
  syncAfterFetch symbol p.1 now okA okB p.2
    (fetch (resumeStartDate p.1.last_sync_date))

/-! ### Single-stock sync lemmas -/

theorem ensureStockInfo_daily (db : Db) (symbol : String)
    (nameApi : Option String) (now : Time) :
    (ensureStockInfo db symbol nameApi now).2.daily = db.daily := by
  unfold ensureStockInfo
  cases db.stocks.find? (fun s => s.symbol == symbol) <;> rfl

theorem ensureStockInfo_last_sync (db : Db) (symbol : String)
    (nameApi : Option String) (now : Time) :
    (ensureStockInfo db symbol nameApi now).1.last_sync_date =
      checkpointOf db symbol := by
  unfold ensureStockInfo checkpointOf
  cases db.stocks.find? (fun s => s.symbol == symbol) <;> rfl

theorem ensureStockInfo_find (db : Db) (symbol : String)
    (nameApi : Option String) (now : Time) :
    (ensureStockInfo db symbol nameApi now).2.stocks.find?
        (fun s => s.symbol == symbol) =
      some (ensureStockInfo db symbol nameApi now).1 := by
  unfold ensureStockInfo
  cases hf : db.stocks.find? (fun s => s.symbol == symbol) with
  | some s => exact hf
  | none =>
    dsimp only
    rw [List.find?_append, hf]
    dsimp only [Option.or]
    rw [List.find?_cons_of_pos _ (by simp)]

theorem ensureStockInfo_checkpoint (db : Db) (symbol : String)
    (nameApi : Option String) (now : Time) :
    checkpointOf (ensureStockInfo db symbol nameApi now).2 symbol =
      checkpointOf db symbol := by
  rw [checkpointOf, ensureStockInfo_find]
  exact ensureStockInfo_last_sync db symbol nameApi now

theorem find?_replaceFirst {α : Type} (p : α → Bool) (f : α → α) :
    ∀ (l : List α) (x : α), l.find? p = some x → p (f x) = true →
      (replaceFirst p f l).find? p = some (f x)
  | [], x, h, _ => by cases h
  | a :: l, x, h, hfx => by
    by_cases hp : p a = true
    · rw [List.find?_cons_of_pos _ hp] at h
      injection h with h
      subst h
      rw [replaceFirst, if_pos hp, List.find?_cons_of_pos _ hfx]
    · rw [List.find?_cons_of_neg _ hp] at h
      rw [replaceFirst, if_neg hp, List.find?_cons_of_neg _ hp]
      exact find?_replaceFirst p f l x h hfx

/-- The running maximum of the inserted trade dates, as folded by the
insert loop. -/
def foldLatest (lat : Option Date) (A : List DbRecord) : Option Date :=
  A.foldl (fun acc r => maxUpdate acc r.trade_date) lat

theorem foldLatest_some (A : List DbRecord) :
    ∀ d : Date, ∃ m, foldLatest (some d) A = some m ∧ d ≤ m := by
  induction A with
  | nil => intro d; exact ⟨d, rfl, le_refl d⟩
  | cons r A ih =>
    intro d
    by_cases h : d < r.trade_date
    · obtain ⟨m, hm, hdm⟩ := ih r.trade_date
      refine ⟨m, ?_, le_trans (Nat.le_of_lt h) hdm⟩
      rw [foldLatest, List.foldl_cons,
        show maxUpdate (some d) r.trade_date = some r.trade_date by
          simp [maxUpdate, h]]
      exact hm
    · obtain ⟨m, hm, hdm⟩ := ih d
      refine ⟨m, ?_, hdm⟩
      rw [foldLatest, List.foldl_cons,
        show maxUpdate (some d) r.trade_date = some d by simp [maxUpdate, h]]
      exact hm

theorem foldLatest_none_cons (r : DbRecord) (A : List DbRecord) :
    ∃ m, foldLatest none (r :: A) = some m := by
  obtain ⟨m, hm, _⟩ := foldLatest_some A r.trade_date
  refine ⟨m, ?_⟩
  rw [foldLatest, List.foldl_cons,
    show maxUpdate none r.trade_date = some r.trade_date from rfl]
  exact hm

theorem foldLatest_max (A : List DbRecord) :
    ∀ (lat : Option Date) (m : Date), foldLatest lat A = some m →
      (∀ r ∈ A, r.trade_date ≤ m) ∧
        (lat = some m ∨ ∃ r ∈ A, r.trade_date = m) := by
  induction A with
  | nil =>
    intro lat m h
    exact ⟨fun r hr => absurd hr (List.not_mem_nil r), Or.inl h⟩
  | cons r A ih =>
    intro lat m h
    rw [foldLatest, List.foldl_cons] at h
    obtain ⟨hbound, hsrc⟩ := ih (maxUpdate lat r.trade_date) m h
    have hstep : ∀ m2, maxUpdate lat r.trade_date = some m2 →
        r.trade_date ≤ m2 ∧ (lat = some m2 ∨ r.trade_date = m2) := by
      intro m2 hm2
      cases lat with
      | none =>
        rw [maxUpdate] at hm2
        injection hm2 with hm2
        exact ⟨le_of_eq hm2, Or.inr hm2⟩
      | some d =>
        rw [maxUpdate] at hm2
        by_cases hd : d < r.trade_date
        · rw [if_pos hd] at hm2
          injection hm2 with hm2
          exact ⟨le_of_eq hm2, Or.inr hm2⟩
        · rw [if_neg hd] at hm2
          injection hm2 with hm2
          subst hm2
          exact ⟨Nat.le_of_not_lt hd, Or.inl rfl⟩
    obtain ⟨m2, hm2⟩ : ∃ m2, maxUpdate lat r.trade_date = some m2 := by
      cases lat with
      | none => exact ⟨r.trade_date, rfl⟩
      | some d =>
        by_cases hd : d < r.trade_date
        · exact ⟨r.trade_date, by simp [maxUpdate, hd]⟩
        · exact ⟨d, by simp [maxUpdate, hd]⟩
    obtain ⟨htd, _⟩ := hstep m2 hm2
    have hm2m : m2 ≤ m := by
      rw [hm2] at h
      obtain ⟨m3, hm3, hle⟩ := foldLatest_some A m2
      rw [show List.foldl (fun acc r => maxUpdate acc r.trade_date) (some m2) A =
        foldLatest (some m2) A from rfl] at h
      rw [h] at hm3
      injection hm3 with hm3
      rw [hm3]
      exact hle
    refine ⟨?_, ?_⟩
    · intro x hx
      cases hx with
      | head => exact le_trans htd hm2m
      | tail _ hx2 => exact hbound x hx2
    · cases hsrc with
      | inl hsome =>
        obtain ⟨_, hor2⟩ := hstep m hsome
        cases hor2 with
        | inl h2 => exact Or.inl h2
        | inr h2 => exact Or.inr ⟨r, List.mem_cons_self r A, h2⟩
      | inr h2 =>
        obtain ⟨x, hx, hxm⟩ := h2
        exact Or.inr ⟨x, List.mem_cons_of_mem r hx, hxm⟩

theorem insertLoop_char (symbol : String) :
    ∀ (recs work : List DbRecord) (ins : Nat) (lat : Option Date),
      ∃ A, insertLoop symbol work recs ins lat =
          (work ++ A, ins + A.length, foldLatest lat A) ∧
        ∀ r ∈ A, r ∈ recs
  | [], work, ins, lat => ⟨[], by simp [insertLoop, foldLatest], by simp⟩
  | r :: rs, work, ins, lat => by
    cases hF : work.find? (keyMatches symbol r.trade_date) with
    | some e =>
      obtain ⟨A, hEq, hMem⟩ := insertLoop_char symbol rs work ins lat
      refine ⟨A, ?_, fun x hx => List.mem_cons_of_mem _ (hMem x hx)⟩
      simp only [insertLoop, hF]
      exact hEq
    | none =>
      obtain ⟨A, hEq, hMem⟩ := insertLoop_char symbol rs (work ++ [r]) (ins + 1)
        (maxUpdate lat r.trade_date)
      refine ⟨r :: A, ?_, ?_⟩
      · simp only [insertLoop, hF]
        rw [hEq, List.append_assoc, Nat.add_assoc, Nat.add_comm 1 A.length]
        rfl
      · intro x hx
        cases hx with
        | head => exact List.mem_cons_self _ _
        | tail _ hx2 => exact List.mem_cons_of_mem _ (hMem x hx2)

/-- At most one row per natural key. -/
def uniqueKeys (l : List DbRecord) : Prop :=
  List.Pairwise (fun a b => ¬(a.symbol = b.symbol ∧ a.trade_date = b.trade_date)) l

theorem keyMatches_iff (symbol : String) (d : Date) (r : DbRecord) :
    keyMatches symbol d r = true ↔ r.symbol = symbol ∧ r.trade_date = d := by
  rw [keyMatches, Bool.and_eq_true, beq_iff_eq, beq_iff_eq]

theorem insertLoop_unique (symbol : String) :
    ∀ (recs work : List DbRecord) (ins : Nat) (lat : Option Date),
      (∀ r ∈ recs, r.symbol = symbol) → uniqueKeys work →
      uniqueKeys (insertLoop symbol work recs ins lat).1
  | [], _, _, _, _, hw => hw
  | r :: rs, work, ins, lat, hsym, hw => by
    cases hF : work.find? (keyMatches symbol r.trade_date) with
    | some e =>
      simp only [insertLoop, hF]
      exact insertLoop_unique symbol rs work ins lat
        (fun x hx => hsym x (List.mem_cons_of_mem _ hx)) hw
    | none =>
      simp only [insertLoop, hF]
      refine insertLoop_unique symbol rs (work ++ [r]) (ins + 1) _
        (fun x hx => hsym x (List.mem_cons_of_mem _ hx)) ?_
      rw [uniqueKeys, List.pairwise_append]
      refine ⟨hw, List.pairwise_singleton _ _, ?_⟩
      intro a ha b hb
      rw [List.mem_singleton.mp hb]
      intro hab
      have hkey : keyMatches symbol r.trade_date a = true := by
        rw [keyMatches_iff]
        exact ⟨hab.1.trans (hsym r (List.mem_cons_self _ _)), hab.2⟩
      exact List.find?_eq_none.mp hF a ha hkey

/-- The data-source contract: records returned for a window start at or
after the requested start date. -/
def fetchHonorsStart (fetch : Date → Except String (List ApiRecord)) : Prop :=
  ∀ (d : Date) (rs : List ApiRecord), fetch d = .ok rs → ∀ r ∈ rs, d ≤ r.date

theorem convert_ok_dates {api : List ApiRecord} {symbol stock_name : String}
    {china_now : Time} {recs : List DbRecord}
    (hok : convert_to_database_format api symbol stock_name china_now = .ok recs) :
    ∀ r ∈ recs, ∃ item ∈ api, r.trade_date = item.date := by
  intro r hr
  obtain ⟨item, hi, he⟩ := convert_ok_mem hok r hr
  refine ⟨item, hi, ?_⟩
  have h1 : r.trade_date = (eraseChanges r).trade_date := rfl
  rw [h1, he]
  rfl

/-- Full case characterization of one single-stock sync run: either nothing
observable changed (no rows, checkpoint untouched, zero count reported), or
some rows `A` — all dated at or after the resume boundary — were committed,
and the checkpoint either stayed (commit of the checkpoint failed or was
not attempted) or moved to exactly the maximum trade date of `A`. -/
theorem sync_single_main (symbol : String)
    (fetch : Date → Except String (List ApiRecord)) (nameApi : Option String)
    (now : Time) (okA okB : Bool) (db : Db) (hf : fetchHonorsStart fetch) :
    (checkpointOf (sync_single_stock_history symbol fetch nameApi now okA okB db).2
        symbol = checkpointOf db symbol ∧
      (sync_single_stock_history symbol fetch nameApi now okA okB db).2.daily =
        db.daily ∧
      (sync_single_stock_history symbol fetch nameApi now okA okB db).1.inserted_count
        = 0) ∨
    (∃ A : List DbRecord,
      (sync_single_stock_history symbol fetch nameApi now okA okB db).2.daily =
        db.daily ++ A ∧
      (∀ r ∈ A, resumeStartDate (checkpointOf db symbol) ≤ r.trade_date) ∧
      ((checkpointOf (sync_single_stock_history symbol fetch nameApi now okA okB db).2
          symbol = checkpointOf db symbol ∧
        (sync_single_stock_history symbol fetch nameApi now okA okB db).1.inserted_count
          = 0) ∨
       (∃ m, checkpointOf
            (sync_single_stock_history symbol fetch nameApi now okA okB db).2 symbol =
          some m ∧
        (sync_single_stock_history symbol fetch nameApi now okA okB db).1.inserted_count
          = A.length ∧
        A ≠ [] ∧ (∃ r ∈ A, r.trade_date = m) ∧ ∀ r ∈ A, r.trade_date ≤ m))) := by
  rcases hE : ensureStockInfo db symbol nameApi now with ⟨info, db1⟩
  have hdaily1 : db1.daily = db.daily := by
    have h := ensureStockInfo_daily db symbol nameApi now
    rw [hE] at h
    exact h
  have hcp1 : checkpointOf db1 symbol = checkpointOf db symbol := by
    have h := ensureStockInfo_checkpoint db symbol nameApi now
    rw [hE] at h
    exact h
  have hls : info.last_sync_date = checkpointOf db symbol := by
    have h := ensureStockInfo_last_sync db symbol nameApi now
    rw [hE] at h
    exact h
  have hfind1 : db1.stocks.find? (fun s => s.symbol == symbol) = some info := by
    have h := ensureStockInfo_find db symbol nameApi now
    rw [hE] at h
    exact h
  unfold sync_single_stock_history
  rw [hE]
  dsimp only
  unfold syncAfterFetch
  cases hFetch : fetch (resumeStartDate info.last_sync_date) with
  | error e => exact Or.inl ⟨hcp1, hdaily1, rfl⟩
  | ok records =>
    dsimp only
    by_cases hrecs : records = []
    · rw [if_pos hrecs]
      exact Or.inl ⟨hcp1, hdaily1, rfl⟩
    · rw [if_neg hrecs]
      cases hconv : convert_to_database_format records symbol info.stock_name now with
      | error e => exact Or.inl ⟨hcp1, hdaily1, rfl⟩
      | ok db_records =>
        dsimp only
        obtain ⟨A, hIL, hmem⟩ := insertLoop_char symbol db_records db1.daily 0 none
        have hAdates : ∀ r ∈ A, resumeStartDate (checkpointOf db symbol) ≤ r.trade_date := by
          intro r hr
          obtain ⟨item, hitem, hdate⟩ := convert_ok_dates hconv r (hmem r hr)
          rw [hdate, ← hls]
          exact hf (resumeStartDate info.last_sync_date) records hFetch item hitem
        rw [hIL]
        cases okA with
        | false => exact Or.inl ⟨hcp1, hdaily1, rfl⟩
        | true =>
          by_cases hA : A = []
          · subst hA
            refine Or.inl ⟨hcp1, ?_, rfl⟩
            show db1.daily ++ ([] : List DbRecord) = db.daily
            rw [List.append_nil]
            exact hdaily1
          · obtain ⟨r0, A2, hA0⟩ : ∃ r0 A2, A = r0 :: A2 := by
              cases A with
              | nil => exact absurd rfl hA
              | cons r0 A2 => exact ⟨r0, A2, rfl⟩
            obtain ⟨m, hm⟩ : ∃ m, foldLatest none A = some m := by
              rw [hA0]
              exact foldLatest_none_cons r0 A2
            have hcond : 0 < 0 + A.length ∧ (foldLatest none A).isSome := by
              refine ⟨by rw [hA0]; simp, by rw [hm]; rfl⟩
            rw [if_pos hcond]
            obtain ⟨hbound, hsrc⟩ := foldLatest_max A none m hm
            have hsrc2 : ∃ r ∈ A, r.trade_date = m := by
              cases hsrc with
              | inl h2 => cases h2
              | inr h2 => exact h2
            cases okB with
            | false =>
              refine Or.inr ⟨A, ?_, hAdates, Or.inl ⟨hcp1, rfl⟩⟩
              show db1.daily ++ A = db.daily ++ A
              rw [hdaily1]
            | true =>
              refine Or.inr ⟨A, ?_, hAdates,
                Or.inr ⟨m, ?_, Nat.zero_add A.length, hA, hsrc2, hbound⟩⟩
              · show db1.daily ++ A = db.daily ++ A
                rw [hdaily1]
              · rw [checkpointOf]
                show (List.find? (fun s : StockInfoRow => s.symbol == symbol)
                    (replaceFirst (fun s : StockInfoRow => s.symbol == symbol)
                      (fun s : StockInfoRow => { s with last_sync_date := foldLatest none A, updated_at := now })
                      db1.stocks)).bind
                    (fun s : StockInfoRow => s.last_sync_date) = some m
                rw [find?_replaceFirst (fun s : StockInfoRow => s.symbol == symbol)
                  (fun s : StockInfoRow => { s with last_sync_date := foldLatest none A, updated_at := now })
                  db1.stocks info hfind1
                  (by simpa using List.find?_some hfind1)]
                exact hm

/-- A failed rows-commit or checkpoint-commit leaves the checkpoint where
it was. -/
theorem sync_single_no_commit (symbol : String)
    (fetch : Date → Except String (List ApiRecord)) (nameApi : Option String)
    (now : Time) (okA okB : Bool) (db : Db) (h : okA = false ∨ okB = false) :
    checkpointOf (sync_single_stock_history symbol fetch nameApi now okA okB db).2
        symbol = checkpointOf db symbol := by
  rcases hE : ensureStockInfo db symbol nameApi now with ⟨info, db1⟩
  have hcp1 : checkpointOf db1 symbol = checkpointOf db symbol := by
    have h2 := ensureStockInfo_checkpoint db symbol nameApi now
    rw [hE] at h2
    exact h2
  unfold sync_single_stock_history
  rw [hE]
  dsimp only
  unfold syncAfterFetch
  cases hFetch : fetch (resumeStartDate info.last_sync_date) with
  | error e => exact hcp1
  | ok records =>
    dsimp only
    by_cases hrecs : records = []
    · rw [if_pos hrecs]
      exact hcp1
    · rw [if_neg hrecs]
      cases hconv : convert_to_database_format records symbol info.stock_name now with
      | error e => exact hcp1
      | ok db_records =>
        dsimp only
        cases okA with
        | false => exact hcp1
        | true =>
          have hB : okB = false := by
            cases h with
            | inl h2 => cases h2
            | inr h2 => exact h2
          subst hB
          by_cases hcond : 0 < (insertLoop symbol db1.daily db_records 0 none).2.1 ∧
              (insertLoop symbol db1.daily db_records 0 none).2.2.isSome
          · rw [if_pos hcond]
            exact hcp1
          · rw [if_neg hcond]
            exact hcp1

/-- One run of the sync with its external inputs. -/
structure SyncRunParams where
  fetch : Date → Except String (List ApiRecord)
  nameFromApi : Option String
  now : Time
  okA : Bool
  okB : Bool

/-- A sequence of sync runs for one entity, threading the store. -/
def syncRuns (symbol : String) (runs : List SyncRunParams) (db : Db) : Db :=
  runs.foldl
    (fun d p =>
      (sync_single_stock_history symbol p.fetch p.nameFromApi p.now p.okA p.okB d).2)
    db

theorem sync_single_mono (symbol : String)
    (fetch : Date → Except String (List ApiRecord)) (nameApi : Option String)
    (now : Time) (okA okB : Bool) (db : Db) (hf : fetchHonorsStart fetch)
    (d : Date) (hcp : checkpointOf db symbol = some d) :
    ∃ d', checkpointOf
        (sync_single_stock_history symbol fetch nameApi now okA okB db).2 symbol =
      some d' ∧ d ≤ d' := by
  rcases sync_single_main symbol fetch nameApi now okA okB db hf with
    ⟨h1, _, _⟩ | ⟨A, _, hA2, hrest⟩
  · exact ⟨d, by rw [h1, hcp], le_refl d⟩
  · cases hrest with
    | inl h2 => exact ⟨d, by rw [h2.1, hcp], le_refl d⟩
    | inr h2 =>
      obtain ⟨m, hm, _, _, hsrc, _⟩ := h2
      obtain ⟨r, hr, hrm⟩ := hsrc
      have hge := hA2 r hr
      rw [hcp] at hge
      refine ⟨m, hm, ?_⟩
      rw [← hrm]
      exact Nat.le_of_succ_le hge

/-! ### Claim C2 -/

/-- C2: across any sequence of sync runs whose fetches honor the requested
window, an entity's checkpoint never decreases; it is not written when
either commit of a run fails; and a run that commits at least one new row
sets it to exactly the maximum trade date it committed. -/
theorem C2_checkpoint_monotonic :
    (∀ (symbol : String) (runs : List SyncRunParams) (db : Db) (d : Date),
      (∀ p ∈ runs, fetchHonorsStart p.fetch) →
      checkpointOf db symbol = some d →
      ∃ d', checkpointOf (syncRuns symbol runs db) symbol = some d' ∧ d ≤ d') ∧
    (∀ (symbol : String) (fetch : Date → Except String (List ApiRecord))
        (nameApi : Option String) (now : Time) (okA okB : Bool) (db : Db),
      okA = false ∨ okB = false →
      checkpointOf (sync_single_stock_history symbol fetch nameApi now okA okB db).2
          symbol = checkpointOf db symbol) ∧
    (∀ (symbol : String) (fetch : Date → Except String (List ApiRecord))
        (nameApi : Option String) (now : Time) (okA okB : Bool) (db : Db),
      fetchHonorsStart fetch →
      0 < (sync_single_stock_history symbol fetch nameApi now okA okB db).1.inserted_count →
      ∃ A m,
        (sync_single_stock_history symbol fetch nameApi now okA okB db).2.daily =
          db.daily ++ A ∧
        checkpointOf (sync_single_stock_history symbol fetch nameApi now okA okB db).2
            symbol = some m ∧
        (∃ r ∈ A, r.trade_date = m) ∧ ∀ r ∈ A, r.trade_date ≤ m) := by
  refine ⟨?_, ?_, ?_⟩
  · intro symbol runs
    induction runs with
    | nil =>
      intro db d _ hcp
      exact ⟨d, hcp, le_refl d⟩
    | cons p rest ih =>
      intro db d hall hcp
      obtain ⟨d1, hd1, hled1⟩ := sync_single_mono symbol p.fetch p.nameFromApi p.now
        p.okA p.okB db (hall p (List.mem_cons_self _ _)) d hcp
      obtain ⟨d2, hd2, hled2⟩ := ih
        (sync_single_stock_history symbol p.fetch p.nameFromApi p.now p.okA p.okB db).2
        d1 (fun q hq => hall q (List.mem_cons_of_mem _ hq)) hd1
      exact ⟨d2, hd2, le_trans hled1 hled2⟩
  · intro symbol fetch nameApi now okA okB db h
    exact sync_single_no_commit symbol fetch nameApi now okA okB db h
  · intro symbol fetch nameApi now okA okB db hf hpos
    rcases sync_single_main symbol fetch nameApi now okA okB db hf with
      ⟨_, _, h0⟩ | ⟨A, hA1, _, hrest⟩
    · rw [h0] at hpos
      exact absurd hpos (by decide)
    · cases hrest with
      | inl h2 =>
        rw [h2.2] at hpos
        exact absurd hpos (by decide)
      | inr h2 =>
        obtain ⟨m, hm, _, _, hsrc, hbound⟩ := h2
        exact ⟨A, m, hA1, hm, hsrc, hbound⟩

/-- A stock row with an existing checkpoint, for the C2 witness. -/
def c2row : StockInfoRow :=
  { symbol := "A", stock_name := "n", stock_code := "A", market_code := "UNKNOWN",
    is_active := "Y", last_sync_date := some 5, first_fetch_time := none,
    created_at := 0, updated_at := 0 }

/-- Witness for C2: one run whose fetch returns no records against a store
whose checkpoint is day 5; the checkpoint stays at or above 5. -/
theorem C2_checkpoint_monotonic_witness :
    ((∀ p ∈ [SyncRunParams.mk (fun _ => .ok []) none 0 true true],
        fetchHonorsStart p.fetch) ∧
      checkpointOf { stocks := [c2row], daily := [] } "A" = some 5) ∧
    (∃ d', checkpointOf
        (syncRuns "A" [SyncRunParams.mk (fun _ => .ok []) none 0 true true]
          { stocks := [c2row], daily := [] }) "A" = some d' ∧ 5 ≤ d') := by
  have hall : ∀ p ∈ [SyncRunParams.mk
      (fun _ : Date => (.ok [] : Except String (List ApiRecord))) none 0 true true],
      fetchHonorsStart p.fetch := by
    intro p hp
    rw [List.mem_singleton] at hp
    subst hp
    intro d rs hrs r hr
    cases hrs
    cases hr
  have hcp : checkpointOf { stocks := [c2row], daily := [] } "A" = some 5 := by decide
  exact ⟨⟨hall, hcp⟩,
    C2_checkpoint_monotonic.1 "A"
      [SyncRunParams.mk (fun _ => .ok []) none 0 true true]
      { stocks := [c2row], daily := [] } 5 hall hcp⟩

/-! ### Claim C7 -/

/-- C7: the fetch window's start is decided once, before fetching — it is
checkpoint+1 day when a checkpoint exists and 2000-01-01 otherwise; the run
depends on the client only through its answer at that start date; and a run
never duplicates an already-committed (symbol, trade_date) row. -/
theorem C7_resume_boundary :
    (resumeStartDate none = epoch2000) ∧
    (∀ d : Date, resumeStartDate (some d) = d + 1) ∧
    (∀ (symbol : String) (f g : Date → Except String (List ApiRecord))
        (nameApi : Option String) (now : Time) (okA okB : Bool) (db : Db),
      f (resumeStartDate (checkpointOf db symbol)) =
        g (resumeStartDate (checkpointOf db symbol)) →
      sync_single_stock_history symbol f nameApi now okA okB db =
        sync_single_stock_history symbol g nameApi now okA okB db) ∧
    (∀ (symbol : String) (fetch : Date → Except String (List ApiRecord))
        (nameApi : Option String) (now : Time) (okA okB : Bool) (db : Db),
      uniqueKeys db.daily →
      uniqueKeys (sync_single_stock_history symbol fetch nameApi now okA okB db).2.daily) := by
  refine ⟨rfl, fun d => rfl, ?_, ?_⟩
  · intro symbol f g nameApi now okA okB db hfg
    unfold sync_single_stock_history
    rcases hE : ensureStockInfo db symbol nameApi now with ⟨info, db1⟩
    have hls : info.last_sync_date = checkpointOf db symbol := by
      have h := ensureStockInfo_last_sync db symbol nameApi now
      rw [hE] at h
      exact h
    dsimp only
    rw [hls, hfg]
  · intro symbol fetch nameApi now okA okB db hu
    rcases hE : ensureStockInfo db symbol nameApi now with ⟨info, db1⟩
    have hdaily1 : db1.daily = db.daily := by
      have h := ensureStockInfo_daily db symbol nameApi now
      rw [hE] at h
      exact h
    unfold sync_single_stock_history
    rw [hE]
    dsimp only
    unfold syncAfterFetch
    cases hFetch : fetch (resumeStartDate info.last_sync_date) with
    | error e =>
      rw [hdaily1]
      exact hu
    | ok records =>
      dsimp only
      by_cases hrecs : records = []
      · rw [if_pos hrecs]
        rw [hdaily1]
        exact hu
      · rw [if_neg hrecs]
        cases hconv : convert_to_database_format records symbol info.stock_name now with
        | error e =>
          rw [hdaily1]
          exact hu
        | ok db_records =>
          dsimp only
          have hu1 : uniqueKeys (insertLoop symbol db1.daily db_records 0 none).1 :=
            insertLoop_unique symbol db_records db1.daily 0 none
              (convert_ok_symbol hconv) (by rw [hdaily1]; exact hu)
          cases okA with
          | false =>
            show uniqueKeys db1.daily
            rw [hdaily1]
            exact hu
          | true =>
            by_cases hcond : 0 < (insertLoop symbol db1.daily db_records 0 none).2.1 ∧
                (insertLoop symbol db1.daily db_records 0 none).2.2.isSome
            · rw [if_pos hcond]
              cases okB with
              | false => exact hu1
              | true => exact hu1
            · rw [if_neg hcond]
              exact hu1

/-- A committed row for the C7 witness. -/
def c7row : DbRecord :=
  { trade_date := 3, symbol := "A", stock_name := "n", close_price := 1,
    open_price := 1, high_price := 1, low_price := 1, volume := 1, turnover := 1,
    market_code := "UNKNOWN", price_change := none, price_change_pct := none,
    premium_rate := none, created_at := 0, updated_at := 0 }

/-- Witness for C7: two clients agreeing at the resume boundary give the
same run, and uniqueness of keys is preserved on a concrete store. -/
theorem C7_resume_boundary_witness :
    ((fun _ : Date => (.ok [] : Except String (List ApiRecord)))
        (resumeStartDate (checkpointOf { stocks := [c2row], daily := [] } "A")) =
      (fun _ : Date => (.ok [] : Except String (List ApiRecord)))
        (resumeStartDate (checkpointOf { stocks := [c2row], daily := [] } "A")) ∧
      sync_single_stock_history "A" (fun _ => .ok []) none 0 true true
          { stocks := [c2row], daily := [] } =
        sync_single_stock_history "A" (fun _ => .ok []) none 0 true true
          { stocks := [c2row], daily := [] }) ∧
    (uniqueKeys [c7row] ∧
      uniqueKeys (sync_single_stock_history "A" (fun _ => .ok []) none 0 true true
        { stocks := [c2row], daily := [c7row] }).2.daily) :=
  ⟨⟨rfl,
    C7_resume_boundary.2.2.1 "A" (fun _ => .ok []) (fun _ => .ok []) none 0 true true
      { stocks := [c2row], daily := [] } rfl⟩,
   ⟨List.pairwise_singleton _ _,
    C7_resume_boundary.2.2.2 "A" (fun _ => .ok []) none 0 true true
      { stocks := [c2row], daily := [c7row] } (List.pairwise_singleton _ _)⟩⟩

/-! ### BackgroundTask (`app/services/background_tasks.py`) -/

/-- Task state machine states (`TaskStatus`). -/
inductive TaskStatus where
  | pending
  | running
  | stopping
  | stopped
  | completed
  | failed
deriving DecidableEq

/-- Either the wrapped function's return value or the fixed cancellation
payload `{'message': '任务已被用户停止'}` written on the stop path. -/
inductive TaskResult (α : Type) where
  | value (v : α)
  | stoppedMessage (msg : String)
deriving DecidableEq

/-- Outcome of the single invocation of the wrapped function inside
`BackgroundTask._run`: a normal return together with the state of the stop
flag at return time, or an unhandled exception carrying its message. -/
inductive FuncOutcome (α : Type) where
  | ret (v : α) (stopFlagSet : Bool)
  | exn (msg : String)
deriving DecidableEq

/-- The task fields written by `BackgroundTask._run`. -/
structure TaskState (α : Type) where
  status : TaskStatus
  result : Option (TaskResult α)
  error : Option String
  completed_at : Option Time
deriving DecidableEq

/-- The cancellation message stored in `result` when the task was stopped. -/
def userStoppedMsg : String := "任务已被用户停止"

/-- `BackgroundTask._run`: the wrapped function runs exactly once and its
single outcome determines the final state; the wrapper performs no retry.
`completed_at` is always stamped (the `finally` block). -/
def taskRun {α : Type} (st : TaskState α) (outcome : FuncOutcome α)
    (endTime : Time) : TaskState α :=
  match outcome with
  | .ret v stopFlagSet =>
    if stopFlagSet then
      { st with status := .stopped,
                result := some (.stoppedMessage userStoppedMsg),
                completed_at := some endTime }
    else
      { st with status := .completed, result := some (.value v),
                completed_at := some endTime }
  | .exn msg =>
    { st with status := .failed, error := some msg,
              completed_at := some endTime }

/-- The task progress record. -/
structure Progress where
  current : Int
  total : Int
  percentage : ℚ
  message : String
deriving DecidableEq

/-- Round half-to-even to an integer: the semantics of Python's `round`
applied to an exact value. -/
def roundHalfEven (q : ℚ) : ℤ :=
  if Int.fract q < 1 / 2 then ⌊q⌋
  else if 1 / 2 < Int.fract q then ⌊q⌋ + 1
  else if ⌊q⌋ % 2 = 0 then ⌊q⌋ else ⌊q⌋ + 1

/-- Python `round(x, 2)`: two-decimal half-even rounding.  (The original
rounds the binary-float approximation of `x`; the model rounds the exact
rational, which agrees except possibly on values within one float ulp of a
two-decimal midpoint.) -/
def round2 (q : ℚ) : ℚ := (roundHalfEven (q * 100) : ℚ) / 100

/-- `BackgroundTask._update_progress`: rebuilds the whole progress record;
the percentage divides only under the `total > 0` guard. -/
def updateProgress (_p : Progress) (current total : Int) (message : String) :
    Progress :=
  { current := current
    total := total
    percentage :=
      if 0 < total then round2 ((current : ℚ) / (total : ℚ) * 100) else 0
    message := message }

/-! ### Claims C9 and C10 -/

/-- C9: for every BackgroundTask whose wrapped function returns normally,
the final status is Stopped with the user-cancellation result when the stop
flag was set, and Completed with the function's return value otherwise; an
unhandled exception yields Failed with `error` equal to the exception's
message.  The wrapped function appears exactly once in `taskRun`'s
definition, so no retry is attempted by the wrapper. -/
theorem C9_task_final_state {α : Type} (st : TaskState α) (v : α)
    (msg : String) (endTime : Time) :
    taskRun st (.ret v true) endTime =
      { st with status := .stopped,
                result := some (.stoppedMessage userStoppedMsg),
                completed_at := some endTime } ∧
    taskRun st (.ret v false) endTime =
      { st with status := .completed, result := some (.value v),
                completed_at := some endTime } ∧
    taskRun st (.exn msg) endTime =
      { st with status := .failed, error := some msg,
                completed_at := some endTime } := by
  refine ⟨rfl, rfl, rfl⟩

/-- C10: every progress report rebuilds all four progress fields; the
stored percentage is the two-decimal rounding of `current/total*100` when
`total > 0` and is `0` when `total ≤ 0`, the latter branch never dividing
(so a report with `total = 0` cannot raise a division error). -/
theorem C10_progress_update (p q : Progress) (current total : Int)
    (message : String) :
    updateProgress p current total message =
      updateProgress q current total message ∧
    (updateProgress p current total message).current = current ∧
    (updateProgress p current total message).total = total ∧
    (updateProgress p current total message).message = message ∧
    (0 < total →
      (updateProgress p current total message).percentage =
        round2 ((current : ℚ) / (total : ℚ) * 100)) ∧
    (total ≤ 0 → (updateProgress p current total message).percentage = 0) := by
  refine ⟨rfl, rfl, rfl, rfl, fun h => ?_, fun h => ?_⟩
  · simp [updateProgress, h]
  · simp [updateProgress, Int.not_lt.mpr h]

/-- Witness for C10 at a concrete report: total 3, current 1 gives
percentage 33.33, and total 0 gives percentage 0. -/
theorem C10_progress_update_witness :
    ((0 : Int) < 3 ∧
      (updateProgress ⟨5, 5, 7, "old"⟩ 1 3 "x").percentage =
        round2 ((1 : ℚ) / 3 * 100)) ∧
    ((0 : Int) ≤ 0 ∧ (updateProgress ⟨5, 5, 7, "old"⟩ 1 0 "x").percentage = 0) := by
  refine ⟨⟨by decide, ?_⟩, ⟨le_refl 0, ?_⟩⟩
  · exact (C10_progress_update ⟨5, 5, 7, "old"⟩ ⟨5, 5, 7, "old"⟩ 1 3 "x").2.2.2.2.1
      (by decide)
  · exact (C10_progress_update ⟨5, 5, 7, "old"⟩ ⟨5, 5, 7, "old"⟩ 1 0 "x").2.2.2.2.2
      (by decide)

/-! ### Multi-entity sync: `SyncService.sync_stock_prices` -/

/-- One entry of the per-entity failure detail. -/
structure FailedStock where
  symbol : String
  error : String
  deriving Repr, DecidableEq

/-- The message recorded for an entity whose fetch returned zero records. -/
def noDataMsg : String := "No data received from API"

/-- The early-return message when no working set could be resolved. -/
def noSymbolsMsg : String := "没有找到需要同步的股票代码"

/-- Mutable state of the multi-entity loop: the store plus the running
tallies. -/
structure PricesState where
  db : Db
  successful : Nat
  failed : List FailedStock
  total_records : Nat

/-- One entity of the multi-entity loop: fetch, classify an empty answer as
a failure with `noDataMsg`, otherwise integrate; a successful integration
bumps the success tally and the row count, anything else appends to the
failure list.  A conversion exception escaping `integrate_stock_data` is
caught by the per-entity handler. -/
def processSymbol (force_update : Bool) (nameOf : String → String) (now : Time)
    (fetcher : String → Except String (List ApiRecord))
    (commitOkOf : String → Nat → Bool) (st : PricesState) (symbol : String) :
    PricesState :=
  match fetcher symbol with
  | .error e => { st with failed := st.failed ++ [{ symbol := symbol, error := e }] }
  | .ok records =>
    if records = [] then
      { st with failed := st.failed ++ [{ symbol := symbol, error := noDataMsg }] }
    else
      match integrate_stock_data symbol records force_update true (nameOf symbol)
          now (commitOkOf symbol) st.db with
      | .error e => { st with failed := st.failed ++ [{ symbol := symbol, error := e }] }
      | .ok (res, db2) =>
        if res.success then
          { st with db := db2, successful := st.successful + 1, total_records := st.total_records + res.inserted_count }
        else
          { st with db := db2, failed := st.failed ++ [{ symbol := symbol, error := res.error.getD "Unknown error" }] }

/-- The cancellation token, observed before each entity: once set (at the
threshold), it stays set. -/
def stopSet (stopAt : Option Nat) (p : Nat) : Bool :=
  match stopAt with
  | none => false
  | some k => decide (k ≤ p)

/-- The batched loop over the working set.  The flag is checked before each
entity; because a set flag stays set, the inner break followed by the outer
break is the same as stopping the whole walk. -/
def runSymbols (force_update : Bool) (nameOf : String → String) (now : Time)
    (fetcher : String → Except String (List ApiRecord))
    (commitOkOf : String → Nat → Bool) (stopAt : Option Nat) :
    List String → Nat → PricesState → PricesState
  | [], _, st => st
  | s :: rest, p, st =>
    if stopSet stopAt p then st
    else runSymbols force_update nameOf now fetcher commitOkOf stopAt rest (p + 1)
      (processSymbol force_update nameOf now fetcher commitOkOf st s)

/-- The working set: the caller's list, or the catalog when the caller gave
none, truncated to `max_stocks`. -/
def resolvedSymbols (symbols autoSymbols : List String) (max_stocks : Nat) :
    List String :=
  if max_stocks < (if symbols = [] then autoSymbols else symbols).length then
    (if symbols = [] then autoSymbols else symbols).take max_stocks
  else (if symbols = [] then autoSymbols else symbols)

/-- The loop's final state over the resolved working set. -/
def pricesRun (symbols autoSymbols : List String) (max_stocks : Nat)
    (force_update : Bool) (nameOf : String → String) (now : Time)
    (fetcher : String → Except String (List ApiRecord))
    (commitOkOf : String → Nat → Bool) (stopAt : Option Nat) (db : Db) :
    PricesState :=
  runSymbols force_update nameOf now fetcher commitOkOf stopAt
    (resolvedSymbols symbols autoSymbols max_stocks) 0
    { db := db, successful := 0, failed := [], total_records := 0 }

/-- The aggregate result returned by the multi-entity sync. -/
structure SyncPricesResult where
  success : Bool
  total_symbols : Nat
  successful_stocks : Nat
  failed_stocks_count : Nat
  failed_stocks : List FailedStock
  total_records : Nat

/-- `success_rate > 0.5`, with the source's guard for an empty working set
(`success_rate = 0` when there is nothing to divide by). -/
def successFlag (succ n : Nat) : Bool :=
  decide ((1 : ℚ)/2 < (if n = 0 then (0 : ℚ) else (succ : ℚ)/(n : ℚ)))

/-- `SyncService.sync_stock_prices`: resolve the working set (early failure
when empty), walk it with per-entity fault isolation and the cancellation
check, then report `success` as rate `> 0.5` over the whole working set and
cap the failure detail to the first ten entries. -/
def sync_stock_prices (symbols autoSymbols : List String) (max_stocks : Nat)
    (force_update : Bool) (nameOf : String → String) (now : Time)
    (fetcher : String → Except String (List ApiRecord))
    (commitOkOf : String → Nat → Bool) (stopAt : Option Nat) (db : Db) :
    Except String (SyncPricesResult × Db) :=
  if (if symbols = [] then autoSymbols else symbols) = [] then .error noSymbolsMsg
  else
    .ok ({ success := successFlag (pricesRun symbols autoSymbols max_stocks force_update nameOf now fetcher commitOkOf stopAt db).successful (resolvedSymbols symbols autoSymbols max_stocks).length,
           total_symbols := (resolvedSymbols symbols autoSymbols max_stocks).length,
           successful_stocks := (pricesRun symbols autoSymbols max_stocks
              force_update nameOf now fetcher commitOkOf stopAt db).successful,
           failed_stocks_count := (pricesRun symbols autoSymbols max_stocks
              force_update nameOf now fetcher commitOkOf stopAt db).failed.length,
           failed_stocks := (pricesRun symbols autoSymbols max_stocks force_update
              nameOf now fetcher commitOkOf stopAt db).failed.take 10,
           total_records := (pricesRun symbols autoSymbols max_stocks force_update
              nameOf now fetcher commitOkOf stopAt db).total_records },
        (pricesRun symbols autoSymbols max_stocks force_update nameOf now fetcher
            commitOkOf stopAt db).db)

theorem rate_gt_half_iff (s n : Nat) (hn : 0 < n) :
    ((1 : ℚ)/2 < (s : ℚ)/(n : ℚ)) ↔ n < 2 * s := by
  rw [div_lt_div_iff₀ (by norm_num) (by exact_mod_cast hn), one_mul]
  constructor
  · intro h
    have h2 : (n : ℚ) < ((2 * s : Nat) : ℚ) := by push_cast; linarith
    exact_mod_cast h2
  · intro h
    have h2 : ((n : Nat) : ℚ) < ((2 * s : Nat) : ℚ) := by exact_mod_cast h
    push_cast at h2
    linarith

/-! ### Claim C5 -/

/-- C5: a finished multi-entity run reports `success = true` exactly when
twice the succeeded tally exceeds the size of the whole working set (the
denominator is the attempted set as reported in `total_symbols`), and the
failure detail it carries is the first ten entries of the full failure
list, whose length is reported separately. -/
theorem C5_success_threshold (symbols autoSymbols : List String)
    (max_stocks : Nat) (force_update : Bool) (nameOf : String → String)
    (now : Time) (fetcher : String → Except String (List ApiRecord))
    (commitOkOf : String → Nat → Bool) (stopAt : Option Nat) (db : Db)
    (h : resolvedSymbols symbols autoSymbols max_stocks ≠ []) :
    ∃ res db2,
      sync_stock_prices symbols autoSymbols max_stocks force_update nameOf now
          fetcher commitOkOf stopAt db = .ok (res, db2) ∧
      res.total_symbols = (resolvedSymbols symbols autoSymbols max_stocks).length ∧
      res.successful_stocks = (pricesRun symbols autoSymbols max_stocks
        force_update nameOf now fetcher commitOkOf stopAt db).successful ∧
      res.failed_stocks = (pricesRun symbols autoSymbols max_stocks force_update
        nameOf now fetcher commitOkOf stopAt db).failed.take 10 ∧
      res.failed_stocks_count = (pricesRun symbols autoSymbols max_stocks
        force_update nameOf now fetcher commitOkOf stopAt db).failed.length ∧
      res.failed_stocks.length ≤ 10 ∧
      (res.success = true ↔ res.total_symbols < 2 * res.successful_stocks) := by
  have h0 : ¬((if symbols = [] then autoSymbols else symbols) = []) := by
    intro h00
    apply h
    rw [resolvedSymbols, h00]
    simp
  rw [sync_stock_prices, if_neg h0]
  refine ⟨_, _, rfl, rfl, rfl, rfl, rfl, ?_, ?_⟩
  · rw [List.length_take]
    exact Nat.min_le_left _ _
  · have hn0 : (resolvedSymbols symbols autoSymbols max_stocks).length ≠ 0 := by
      intro h2
      exact h (List.length_eq_zero.mp h2)
    rw [successFlag, if_neg hn0, decide_eq_true_iff]
    exact rate_gt_half_iff _ _ (Nat.pos_of_ne_zero hn0)

/-- Witness for C5: one caller-supplied symbol whose fetch raises; the run
finishes and the reported shape follows the theorem. -/
theorem C5_success_threshold_witness :
    resolvedSymbols ["A"] [] 100 ≠ [] ∧
    (∃ res db2,
      sync_stock_prices ["A"] [] 100 false (fun s => s) 0 (fun _ => .error "boom")
          (fun _ _ => true) none { stocks := [], daily := [] } = .ok (res, db2) ∧
      res.total_symbols = (resolvedSymbols ["A"] [] 100).length ∧
      res.successful_stocks = (pricesRun ["A"] [] 100 false (fun s => s) 0
        (fun _ => .error "boom") (fun _ _ => true) none
        { stocks := [], daily := [] }).successful ∧
      res.failed_stocks = (pricesRun ["A"] [] 100 false (fun s => s) 0
        (fun _ => .error "boom") (fun _ _ => true) none
        { stocks := [], daily := [] }).failed.take 10 ∧
      res.failed_stocks_count = (pricesRun ["A"] [] 100 false (fun s => s) 0
        (fun _ => .error "boom") (fun _ _ => true) none
        { stocks := [], daily := [] }).failed.length ∧
      res.failed_stocks.length ≤ 10 ∧
      (res.success = true ↔ res.total_symbols < 2 * res.successful_stocks)) :=
  ⟨by decide,
   C5_success_threshold ["A"] [] 100 false (fun s => s) 0 (fun _ => .error "boom")
     (fun _ _ => true) none { stocks := [], daily := [] } (by decide)⟩

/-! ### Claim C4 -/

/-- C4 as written is refuted on the multi-entity path: an entity whose
fetch answers zero records is appended to the failure list with
`noDataMsg`, counted in `failed_stocks_count`, and — alone in the working
set — drives the run to `success = false`. -/
theorem C4_claim_counterexample :
    sync_stock_prices ["SH.1"] [] 100 false (fun s => s) 0 (fun _ => .ok [])
        (fun _ _ => true) none { stocks := [], daily := [] } =
      .ok ({ success := false, total_symbols := 1, successful_stocks := 0,
             failed_stocks_count := 1,
             failed_stocks := [{ symbol := "SH.1", error := noDataMsg }],
             total_records := 0 }, { stocks := [], daily := [] }) := by
  rw [sync_stock_prices, if_neg (by decide)]
  have hs : successFlag (pricesRun ["SH.1"] [] 100 false (fun s => s) 0
        (fun _ => .ok []) (fun _ _ => true) none
        { stocks := [], daily := [] }).successful
      (resolvedSymbols ["SH.1"] [] 100).length = false := by
    rw [show (pricesRun ["SH.1"] [] 100 false (fun s => s) 0 (fun _ => .ok [])
          (fun _ _ => true) none
          { stocks := [], daily := [] }).successful = 0 from rfl,
      show (resolvedSymbols ["SH.1"] [] 100).length = 1 from rfl,
      successFlag, if_neg (by decide)]
    apply decide_eq_false
    norm_num
  rw [hs]
  rfl

/-- C4 amended: on the multi-entity path a zero-record entity **is** added
to the failed tally, with error `noDataMsg` (so it can make the run fail);
only the single-entity sync classifies zero records as a successful
`up_to_date` outcome that leaves the store and the checkpoint untouched. -/
theorem C4_amended_zero_records :
    (∀ (force_update : Bool) (nameOf : String → String) (now : Time)
        (fetcher : String → Except String (List ApiRecord))
        (commitOkOf : String → Nat → Bool) (st : PricesState) (symbol : String),
      fetcher symbol = .ok [] →
      processSymbol force_update nameOf now fetcher commitOkOf st symbol =
        { st with failed := st.failed ++ [{ symbol := symbol, error := noDataMsg }] }) ∧
    (∀ (symbol : String) (fetch : Date → Except String (List ApiRecord))
        (nameApi : Option String) (now : Time) (okA okB : Bool) (db : Db),
      fetch (resumeStartDate (checkpointOf db symbol)) = .ok [] →
      (sync_single_stock_history symbol fetch nameApi now okA okB db).1.success
          = true ∧
      (sync_single_stock_history symbol fetch nameApi now okA okB db).1.action
          = "up_to_date" ∧
      (sync_single_stock_history symbol fetch nameApi now okA okB db).1.inserted_count
          = 0 ∧
      (sync_single_stock_history symbol fetch nameApi now okA okB db).2.daily
          = db.daily ∧
      checkpointOf (sync_single_stock_history symbol fetch nameApi now okA okB db).2
          symbol = checkpointOf db symbol) := by
  constructor
  · intro force_update nameOf now fetcher commitOkOf st symbol hz
    rw [processSymbol, hz]
    rfl
  · intro symbol fetch nameApi now okA okB db hz
    rcases hE : ensureStockInfo db symbol nameApi now with ⟨info, db1⟩
    have hdaily1 : db1.daily = db.daily := by
      have h := ensureStockInfo_daily db symbol nameApi now
      rw [hE] at h
      exact h
    have hcp1 : checkpointOf db1 symbol = checkpointOf db symbol := by
      have h := ensureStockInfo_checkpoint db symbol nameApi now
      rw [hE] at h
      exact h
    have hls : info.last_sync_date = checkpointOf db symbol := by
      have h := ensureStockInfo_last_sync db symbol nameApi now
      rw [hE] at h
      exact h
    have hz2 : fetch (resumeStartDate info.last_sync_date) = .ok [] := by
      rw [hls]
      exact hz
    unfold sync_single_stock_history
    rw [hE]
    dsimp only
    unfold syncAfterFetch
    rw [hz2]
    exact ⟨rfl, rfl, rfl, hdaily1, hcp1⟩

/-- Witness for C4's amended claim at a concrete zero-record entity on both
paths. -/
theorem C4_amended_zero_records_witness :
    processSymbol false (fun s => s) 0 (fun _ => .ok []) (fun _ _ => true)
        { db := { stocks := [], daily := [] }, successful := 0, failed := [],
          total_records := 0 } "A" =
      { db := { stocks := [], daily := [] }, successful := 0,
        failed := [{ symbol := "A", error := noDataMsg }], total_records := 0 } ∧
    (sync_single_stock_history "A" (fun _ => .ok []) none 0 true true
        { stocks := [], daily := [] }).1.action = "up_to_date" :=
  ⟨C4_amended_zero_records.1 false (fun s => s) 0 (fun _ => .ok [])
     (fun _ _ => true)
     { db := { stocks := [], daily := [] }, successful := 0, failed := [],
       total_records := 0 } "A" rfl,
   (C4_amended_zero_records.2 "A" (fun _ => .ok []) none 0 true true
     { stocks := [], daily := [] } rfl).2.1⟩

end StockSync
